import Mathlib

/-!
Shallow embedding of `parser.py` (insurance policy document field extractor)
together with proofs about the claims of its specification.

Strings are modelled as `List Char`.  Python whitespace (as used by
`str.strip`, `str.split` and the regular-expression class `\s`) is modelled
by its ASCII fragment, which is the fragment exercised by the program's
patterns and documents.
-/

/-- Whitespace test: the ASCII fragment of Python `str.isspace` / regex `\s`. -/
def pws (c : Char) : Bool :=
  c == ' ' || c == '\t' || c == '\n' || c == '\r' || c == Char.ofNat 11 || c == Char.ofNat 12

/-- Split a character list at every character satisfying `p`, keeping empty
pieces, as Python `str.split(sep)` does for a one-character separator. -/
def splitOnP (p : Char → Bool) : List Char → List (List Char)
  | [] => [[]]
  | c :: r =>
    if p c then [] :: splitOnP p r
    else
      match splitOnP p r with
      | [] => [[c]]
      | l :: ls => (c :: l) :: ls

/-- Python `text.split('\n')`. -/
def splitNl (s : List Char) : List (List Char) :=
  splitOnP (fun c => c == '\n') s

/-- Python `sep.join(pieces)` for a one-character separator. -/
def joinSep (sep : Char) : List (List Char) → List Char
  | [] => []
  | [l] => l
  | l :: m :: ls => l ++ sep :: joinSep sep (m :: ls)

/-- Python `'\n'.join(pieces)`. -/
def joinNl : List (List Char) → List Char :=
  joinSep '\n'

/-- Python `' '.join(pieces)`. -/
def joinSpace : List (List Char) → List Char :=
  joinSep ' '

/-- Python `s.strip()` (ASCII whitespace). -/
def pyStrip (s : List Char) : List Char :=
  ((s.dropWhile pws).reverse.dropWhile pws).reverse

/-- Python `s.split()`: the maximal whitespace-free tokens of `s`. -/
def pySplitWs (s : List Char) : List (List Char) :=
  (splitOnP pws s).filter (fun t => !t.isEmpty)

/-- Per-line work of `normalize_text`: `' '.join(line.strip().split())`. -/
def cleanLine (line : List Char) : List Char :=
  joinSpace (pySplitWs (pyStrip line))

/-- State-machine equivalent of `re.sub(r'\n{3,}', '\n\n', s)`: `k` counts the
newlines just emitted (capped at 2); a newline arriving while two have just
been emitted belongs to a run of length at least three and is dropped, so each
maximal run of three or more newlines is shortened to exactly two. -/
def collapseNlA : Nat → List Char → List Char
  | _, [] => []
  | k, c :: r =>
    if c == '\n' then
      if 2 ≤ k then collapseNlA k r else '\n' :: collapseNlA (k + 1) r
    else
      c :: collapseNlA 0 r

/-- Python `re.sub(r'\n{3,}', '\n\n', s)`. -/
def collapseNl (s : List Char) : List Char :=
  collapseNlA 0 s

/-- Python `InsuranceParser.normalize_text`. -/
def normalize_text (text : List Char) : List Char :=
  collapseNl (joinNl ((splitNl text).map cleanLine))

/-- Does the list start with two newline characters? -/
def twoNl : List Char → Bool
  | a :: b :: _ => a == '\n' && b == '\n'
  | _ => false

/-- Does the list contain a run of three or more consecutive newlines? -/
def hasRun3 : List Char → Bool
  | [] => false
  | c :: r => (c == '\n' && twoNl r) || hasRun3 r

example : normalize_text ([' ', 'a', ' ', ' ', 'b', '\t', '\n', '\n', '\n', 'c', ' ']) =
    ['a', ' ', 'b', '\n', '\n', 'c'] := by decide

example : hasRun3 ['a', '\n', '\n', '\n'] = true := by decide

/-!
A small backtracking regular-expression engine covering exactly the
constructs used by the patterns of `parser.py`, with Python `re` semantics:
leftmost match, greedy repetition tried longest first, lazy repetition tried
shortest first, alternatives tried left to right, and a single capturing
group.  Repetition is restricted to one-character classes, which is the only
form the source patterns use.
-/

/-- Regular-expression abstract syntax.  `cls` is a one-character class,
`star`/`lstar` are greedy/lazy Kleene star over a class, `grp` is the single
capturing group of a pattern, and `dollar` is the anchor `$` (matching at the
end of the text or just before a final newline). -/
inductive RE where
  | eps : RE
  | cls : (Char → Bool) → RE
  | cat : RE → RE → RE
  | alt : RE → RE → RE
  | star : (Char → Bool) → RE
  | lstar : (Char → Bool) → RE
  | opt : RE → RE
  | grp : RE → RE
  | dollar : RE

/-- First capture wins: in `cat`, a capture made by the left factor is kept. -/
def mergeCap : Option (List Char) → Option (List Char) → Option (List Char)
  | some v, _ => some v
  | none, c => c

/-- All ways `r` can match a prefix of `s`, in backtracking priority order.
Each result is the remaining suffix together with the text captured by the
group, if the group took part in the match. -/
def runRE : RE → List Char → List (List Char × Option (List Char))
  | .eps, s => [(s, none)]
  | .cls p, s =>
    match s with
    | [] => []
    | c :: r => if p c then [(r, none)] else []
  | .cat a b, s =>
    (runRE a s).flatMap fun q =>
      (runRE b q.1).map fun w => (w.1, mergeCap q.2 w.2)
  | .alt a b, s => runRE a s ++ runRE b s
  | .star p, s =>
    let n := (s.takeWhile p).length
    (List.range (n + 1)).map fun i => (s.drop (n - i), none)
  | .lstar p, s =>
    let n := (s.takeWhile p).length
    (List.range (n + 1)).map fun i => (s.drop i, none)
  | .opt a, s => runRE a s ++ [(s, none)]
  | .grp a, s =>
    (runRE a s).map fun q => (q.1, some (s.take (s.length - q.1.length)))
  | .dollar, s => if s = [] ∨ s = ['\n'] then [(s, none)] else []

/-- Python `re.search`: try every start position from the left; at the first
position where the pattern matches, return the group-1 capture of the
highest-priority match (`none` = no match anywhere, `some none` = match whose
group did not participate). -/
def reSearch (r : RE) : List Char → Option (Option (List Char))
  | [] =>
    match runRE r [] with
    | q :: _ => some q.2
    | [] => none
  | c :: rest =>
    match runRE r (c :: rest) with
    | q :: _ => some q.2
    | [] => reSearch r rest

/-- Does the pattern contain the capturing group? -/
def hasGrp : RE → Bool
  | .eps => false
  | .cls _ => false
  | .cat a b => hasGrp a || hasGrp b
  | .alt a b => hasGrp a || hasGrp b
  | .star _ => false
  | .lstar _ => false
  | .opt a => hasGrp a
  | .grp _ => true
  | .dollar => false

/-- Case-insensitive literal character (patterns are compiled with
`re.IGNORECASE`). -/
def lit (a : Char) : RE :=
  .cls (fun c => c.toLower == a.toLower)

/-- Case-insensitive literal word. -/
def litStr (s : List Char) : RE :=
  s.foldr (fun c r => .cat (lit c) r) .eps

/-- Sequencing of a list of pattern pieces. -/
def seqRE (l : List RE) : RE :=
  l.foldr .cat .eps

/-- Regex `\s*`. -/
def wsStar : RE := .star pws

/-- Regex `\s+`. -/
def wsPlus : RE := .cat (.cls pws) (.star pws)

/-- Regex `:?`. -/
def optColon : RE := .opt (lit ':')

/-- Character class `[\d,]` of `NUMERIC_PATTERN`. -/
def digitComma (c : Char) : Bool :=
  c.isDigit || c == ','

/-- Regex `\.\d{2}` (the fractional part of `NUMERIC_PATTERN`). -/
def fracRE : RE :=
  seqRE [.cls (fun c => c == '.'), .cls Char.isDigit, .cls Char.isDigit]

/-- Body of `NUMERIC_PATTERN`, `[\d,]+(?:\.\d{2})?`. -/
def numBody : RE :=
  seqRE [.cls digitComma, .star digitComma, .opt fracRE]

/-- A numeric-field pattern: an uncaptured prefix followed by the captured
`NUMERIC_PATTERN`. -/
def numPat (pre : RE) : RE :=
  .cat pre (.grp numBody)

/-- `CURRENCY_SYMBOLS`, `(?:USD|INR|\$|Rs\.?)?`. -/
def currencyRE : RE :=
  .opt (.alt (litStr ['U', 'S', 'D'])
    (.alt (litStr ['I', 'N', 'R'])
      (.alt (.cls (fun c => c == '$'))
        (.cat (litStr ['R', 's']) (.opt (.cls (fun c => c == '.')))))))

example : reSearch (numPat (seqRE [litStr ['x'], wsStar, currencyRE, wsStar]))
    ['X', ' ', '$', '1', ',', '2', '.', '5', '0'] = some (some ['1', ',', '2', '.', '5', '0']) := by
  decide

/-- Alternation `a|b|c|...` of a nonempty list of branches, tried left to
right. -/
def altList : List RE → RE
  | [] => .eps
  | [r] => r
  | r :: s :: rest => .alt r (altList (s :: rest))

/-- Character class `[A-Z0-9]` under `re.IGNORECASE`. -/
def pnFirst (c : Char) : Bool :=
  c.isAlpha || c.isDigit

/-- Character class of letters, digits, dash, slash and backslash under
`re.IGNORECASE` (second class of the policy-number pattern). -/
def pnRest (c : Char) : Bool :=
  c.isAlpha || c.isDigit || c == '-' || c == '/' || c == '\\'

/-- Character class `[A-Za-z\s]`. -/
def alphaWs (c : Char) : Bool :=
  c.isAlpha || pws c

/-- Regex `(?:\n|$)`. -/
def eolRE : RE :=
  .alt (.cls (fun c => c == '\n')) .dollar

/-- Date separator class: slash or dash. -/
def dsep (c : Char) : Bool :=
  c == '/' || c == '-'

/-- Regex `\d{2}`. -/
def dd : RE :=
  .cat (.cls Char.isDigit) (.cls Char.isDigit)

/-- `DATE_PATTERN`: captured two-digit pair, separator, two-digit pair,
separator, four digits. -/
def dateGrp : RE :=
  .grp (seqRE [dd, .cls dsep, dd, .cls dsep, dd, dd])

/-- Tail `\s*:?\s*{CURRENCY_SYMBOLS}\s*` shared by most numeric patterns. -/
def curTail : List RE :=
  [wsStar, optColon, wsStar, currencyRE, wsStar]

/-- Pattern 1 of `extract_policy_number`. -/
def policyNumberP1 : RE :=
  seqRE [litStr ['P', 'o', 'l', 'i', 'c', 'y'], wsPlus,
    altList [litStr ['N', 'u', 'm', 'b', 'e', 'r'],
      .cat (litStr ['N', 'o']) (.opt (.cls (fun c => c == '.'))),
      .cls (fun c => c == '#')],
    wsStar, optColon, wsStar,
    .grp (seqRE [.cls pnFirst, .cls pnRest, .star pnRest])]

/-- Pattern 1 of `extract_policyholder`. -/
def policyholderP1 : RE :=
  seqRE [litStr ['P', 'o', 'l', 'i', 'c', 'y', 'h', 'o', 'l', 'd', 'e', 'r'],
    .opt (.cat wsPlus (litStr ['N', 'a', 'm', 'e'])), lit ':', wsStar,
    .grp (.cat (.cls alphaWs) (.lstar alphaWs)), eolRE]

/-- Pattern 1 of `extract_policy_type`. -/
def policyTypeP1 : RE :=
  seqRE [litStr ['P', 'o', 'l', 'i', 'c', 'y'], wsPlus, litStr ['T', 'y', 'p', 'e'], lit ':',
    wsStar, .grp (.cat (.cls alphaWs) (.lstar alphaWs)), eolRE]

/-- Patterns of `extract_effective_date`. -/
def effectiveDateP1 : RE :=
  seqRE [altList [litStr ['E', 'f', 'f', 'e', 'c', 't', 'i', 'v', 'e'],
      litStr ['S', 't', 'a', 'r', 't'],
      litStr ['C', 'o', 'm', 'm', 'e', 'n', 'c', 'e', 'm', 'e', 'n', 't'],
      litStr ['F', 'r', 'o', 'm']],
    wsPlus, litStr ['D', 'a', 't', 'e'], wsStar, optColon, wsStar, dateGrp]

/-- Second pattern of `extract_effective_date`. -/
def effectiveDateP2 : RE :=
  seqRE [litStr ['P', 'o', 'l', 'i', 'c', 'y'], wsPlus,
    altList [litStr ['S', 't', 'a', 'r', 't'], litStr ['E', 'f', 'f', 'e', 'c', 't', 'i', 'v', 'e']],
    wsPlus, litStr ['D', 'a', 't', 'e'], wsStar, optColon, wsStar, dateGrp]

/-- Third pattern of `extract_effective_date`. -/
def effectiveDateP3 : RE :=
  seqRE [altList [litStr ['V', 'a', 'l', 'i', 'd'], litStr ['C', 'o', 'v', 'e', 'r', 'a', 'g', 'e']],
    wsPlus, litStr ['F', 'r', 'o', 'm'], wsStar, optColon, wsStar, dateGrp]

/-- Patterns of `extract_expiration_date`. -/
def expirationDateP1 : RE :=
  seqRE [altList [litStr ['E', 'x', 'p', 'i', 'r', 'a', 't', 'i', 'o', 'n'],
      litStr ['E', 'x', 'p', 'i', 'r', 'y'], litStr ['E', 'n', 'd'], litStr ['T', 'o']],
    wsPlus, litStr ['D', 'a', 't', 'e'], wsStar, optColon, wsStar, dateGrp]

/-- Second pattern of `extract_expiration_date`. -/
def expirationDateP2 : RE :=
  seqRE [litStr ['P', 'o', 'l', 'i', 'c', 'y'], wsPlus,
    altList [litStr ['E', 'n', 'd'], litStr ['E', 'x', 'p', 'i', 'r', 'y']],
    wsPlus, litStr ['D', 'a', 't', 'e'], wsStar, optColon, wsStar, dateGrp]

/-- Third pattern of `extract_expiration_date`. -/
def expirationDateP3 : RE :=
  seqRE [altList [litStr ['V', 'a', 'l', 'i', 'd'], litStr ['C', 'o', 'v', 'e', 'r', 'a', 'g', 'e']],
    wsPlus, altList [litStr ['U', 'n', 't', 'i', 'l'], litStr ['T', 'o']],
    wsStar, optColon, wsStar, dateGrp]

/-- Patterns of `extract_coverage_amount`. -/
def coverageAmountP1 : RE :=
  numPat (seqRE ([altList [litStr ['C', 'o', 'v', 'e', 'r', 'a', 'g', 'e'], litStr ['S', 'u', 'm']],
    wsPlus, altList [litStr ['A', 'm', 'o', 'u', 'n', 't'], litStr ['I', 'n', 's', 'u', 'r', 'e', 'd']]]
    ++ curTail))

/-- Second pattern of `extract_coverage_amount`. -/
def coverageAmountP2 : RE :=
  numPat (seqRE ([litStr ['S', 'u', 'm'], wsPlus, litStr ['I', 'n', 's', 'u', 'r', 'e', 'd']] ++ curTail))

/-- Third pattern of `extract_coverage_amount`. -/
def coverageAmountP3 : RE :=
  numPat (seqRE ([litStr ['I', 'n', 's', 'u', 'r', 'e', 'd'], wsPlus,
    altList [litStr ['A', 'm', 'o', 'u', 'n', 't'], litStr ['V', 'a', 'l', 'u', 'e']]] ++ curTail))

/-- Patterns of `extract_premium`. -/
def premiumP1 : RE :=
  numPat (seqRE ([altList [litStr ['B', 'a', 's', 'e'], litStr ['B', 'a', 's', 'i', 'c'],
    litStr ['N', 'e', 't']], wsPlus, litStr ['P', 'r', 'e', 'm', 'i', 'u', 'm']] ++ curTail))

/-- Second pattern of `extract_premium`. -/
def premiumP2 : RE :=
  numPat (seqRE ([litStr ['P', 'r', 'e', 'm', 'i', 'u', 'm']] ++ curTail))

/-- Third pattern of `extract_premium`. -/
def premiumP3 : RE :=
  numPat (seqRE ([altList [litStr ['M', 'o', 'n', 't', 'h', 'l', 'y'],
    litStr ['A', 'n', 'n', 'u', 'a', 'l'], litStr ['Y', 'e', 'a', 'r', 'l', 'y']],
    wsPlus, litStr ['P', 'r', 'e', 'm', 'i', 'u', 'm']] ++ curTail))

/-- Patterns of `extract_total_premium`. -/
def totalPremiumP1 : RE :=
  numPat (seqRE ([litStr ['T', 'o', 't', 'a', 'l'], wsPlus,
    litStr ['P', 'r', 'e', 'm', 'i', 'u', 'm']] ++ curTail))

/-- Second pattern of `extract_total_premium`. -/
def totalPremiumP2 : RE :=
  numPat (seqRE ([altList [litStr ['G', 'r', 'o', 's', 's'], litStr ['F', 'i', 'n', 'a', 'l']],
    wsPlus, litStr ['P', 'r', 'e', 'm', 'i', 'u', 'm']] ++ curTail))

/-- Third pattern of `extract_total_premium`. -/
def totalPremiumP3 : RE :=
  numPat (seqRE ([litStr ['P', 'r', 'e', 'm', 'i', 'u', 'm'], wsPlus,
    altList [litStr ['T', 'o', 't', 'a', 'l'], litStr ['A', 'm', 'o', 'u', 'n', 't']]] ++ curTail))

/-- Patterns of `extract_taxes`. -/
def taxesP1 : RE :=
  numPat (seqRE ([altList [litStr ['G', 'S', 'T'], litStr ['T', 'a', 'x'],
    .cat (litStr ['S', 'e', 'r', 'v', 'i', 'c', 'e']) (.cat wsPlus (litStr ['T', 'a', 'x']))],
    wsStar, .opt (litStr ['A', 'm', 'o', 'u', 'n', 't'])] ++ curTail))

/-- Second pattern of `extract_taxes`. -/
def taxesP2 : RE :=
  numPat (seqRE ([.cat (litStr ['T', 'a', 'x']) (.opt (litStr ['e', 's']))] ++ curTail))

/-- Third pattern of `extract_taxes`. -/
def taxesP3 : RE :=
  numPat (seqRE ([altList [litStr ['P', 'o', 'l', 'i', 'c', 'y'],
    litStr ['I', 'n', 's', 'u', 'r', 'a', 'n', 'c', 'e']], wsPlus, litStr ['T', 'a', 'x']] ++ curTail))

/-- Fourth pattern of `extract_taxes`, `GST\s*@?\s*\d+%?\s*:?\s*...`. -/
def taxesP4 : RE :=
  numPat (seqRE ([litStr ['G', 'S', 'T'], wsStar, .opt (lit '@'), wsStar,
    .cat (.cls Char.isDigit) (.star Char.isDigit), .opt (.cls (fun c => c == '%'))] ++ curTail))

/-- Patterns of `extract_fees`. -/
def feesP1 : RE :=
  numPat (seqRE ([altList [litStr ['A', 'd', 'm', 'i', 'n', 'i', 's', 't', 'r', 'a', 't', 'i', 'v', 'e'],
    litStr ['P', 'r', 'o', 'c', 'e', 's', 's', 'i', 'n', 'g'],
    litStr ['S', 'e', 'r', 'v', 'i', 'c', 'e']], wsPlus, litStr ['F', 'e', 'e']] ++ curTail))

/-- Second pattern of `extract_fees`. -/
def feesP2 : RE :=
  numPat (seqRE ([.cat (litStr ['F', 'e', 'e']) (.opt (litStr ['s']))] ++ curTail))

/-- Third pattern of `extract_fees`. -/
def feesP3 : RE :=
  numPat (seqRE ([altList [litStr ['S', 't', 'a', 'm', 'p'], litStr ['P', 'o', 'l', 'i', 'c', 'y']],
    wsPlus, litStr ['F', 'e', 'e']] ++ curTail))

/-- Patterns of `extract_deductible`. -/
def deductibleP1 : RE :=
  numPat (seqRE ([litStr ['D', 'e', 'd', 'u', 'c', 't', 'i', 'b', 'l', 'e'], wsStar,
    .opt (litStr ['A', 'm', 'o', 'u', 'n', 't'])] ++ curTail))

/-- Second pattern of `extract_deductible`. -/
def deductibleP2 : RE :=
  numPat (seqRE ([altList [litStr ['S', 't', 'a', 'n', 'd', 'a', 'r', 'd'],
    litStr ['B', 'a', 's', 'i', 'c']], wsPlus,
    litStr ['D', 'e', 'd', 'u', 'c', 't', 'i', 'b', 'l', 'e']] ++ curTail))

/-- Third pattern of `extract_deductible`. -/
def deductibleP3 : RE :=
  numPat (seqRE ([altList [litStr ['E', 'x', 'c', 'e', 's', 's'],
    litStr ['C', 'o', '-', 'p', 'a', 'y', 'm', 'e', 'n', 't']]] ++ curTail))

/-- Vocabulary alternation of `extract_payment_frequency` pattern 1. -/
def freqVocab : RE :=
  altList [litStr ['M', 'o', 'n', 't', 'h', 'l', 'y'],
    litStr ['Q', 'u', 'a', 'r', 't', 'e', 'r', 'l', 'y'],
    litStr ['A', 'n', 'n', 'u', 'a', 'l'],
    litStr ['Y', 'e', 'a', 'r', 'l', 'y'],
    seqRE [litStr ['B', 'i'], .opt (lit '-'), litStr ['a', 'n', 'n', 'u', 'a', 'l']],
    seqRE [litStr ['S', 'e', 'm', 'i'], .opt (lit '-'), litStr ['a', 'n', 'n', 'u', 'a', 'l']]]

/-- Pattern 1 of `extract_payment_frequency`. -/
def paymentFrequencyP1 : RE :=
  seqRE [litStr ['P', 'a', 'y', 'm', 'e', 'n', 't'], wsPlus,
    litStr ['F', 'r', 'e', 'q', 'u', 'e', 'n', 'c', 'y'], wsStar, optColon, wsStar, .grp freqVocab]

/-- Pattern 2 of `extract_payment_frequency`. -/
def paymentFrequencyP2 : RE :=
  seqRE [litStr ['B', 'i', 'l', 'l', 'e', 'd'], wsPlus,
    .grp (altList [litStr ['M', 'o', 'n', 't', 'h', 'l', 'y'],
      litStr ['Q', 'u', 'a', 'r', 't', 'e', 'r', 'l', 'y'],
      litStr ['A', 'n', 'n', 'u', 'a', 'l'], litStr ['Y', 'e', 'a', 'r', 'l', 'y']])]

/-- Pattern 3 of `extract_payment_frequency`; note it has no capturing
group, so a successful search makes `group(1)` raise `IndexError`. -/
def paymentFrequencyP3 : RE :=
  seqRE [altList [litStr ['M', 'o', 'n', 't', 'h', 'l', 'y'],
      litStr ['Q', 'u', 'a', 'r', 't', 'e', 'r', 'l', 'y'],
      litStr ['A', 'n', 'n', 'u', 'a', 'l'], litStr ['Y', 'e', 'a', 'r', 'l', 'y']],
    wsPlus, altList [litStr ['P', 'a', 'y', 'm', 'e', 'n', 't'],
      litStr ['B', 'i', 'l', 'l', 'i', 'n', 'g']]]

/-- Patterns of `extract_copay` (`Co-?pay\s*:?\s*\$?NUM`, no whitespace
between the optional dollar sign and the number). -/
def copayP1 : RE :=
  numPat (seqRE [litStr ['C', 'o'], .opt (lit '-'), litStr ['p', 'a', 'y'], wsStar, optColon,
    wsStar, .opt (.cls (fun c => c == '$'))])

/-- Second pattern of `extract_copay`. -/
def copayP2 : RE :=
  numPat (seqRE [litStr ['C', 'o', 'p', 'a', 'y', 'm', 'e', 'n', 't'], wsStar, optColon,
    wsStar, .opt (.cls (fun c => c == '$'))])

/-- Group read-out and post-processing performed by `_extract_with_patterns`
once a pattern has matched: `match.group(1)` raises when the pattern has no
group 1 (modelled as `Except.error`); the captured value is comma-stripped
when `clean_numeric` is set and then stripped of surrounding whitespace. -/
def extractOne (p : RE) (cap : Option (List Char)) (clean_numeric : Bool) :
    Except Unit (Option (List Char)) :=
  if hasGrp p then
    match cap with
    | some v => .ok (some (pyStrip (if clean_numeric then v.filter (fun c => c != ',') else v)))
    | none => if clean_numeric then .error () else .ok none
  else .error ()

/-- Python `InsuranceParser._extract_with_patterns`: try the patterns in
order against the normalized text and process the first match. -/
def extract_with_patterns : List RE → Bool → List Char → Except Unit (Option (List Char))
  | [], _, _ => .ok none
  | p :: ps, clean_numeric, text =>
    match reSearch p text with
    | some cap => extractOne p cap clean_numeric
    | none => extract_with_patterns ps clean_numeric text

/-- The try/except wrapper shared by every field extraction unit: any
internal error becomes absence. -/
def unitCatch (body : List Char → Except Unit (Option (List Char))) (text : List Char) :
    Option (List Char) :=
  match body text with
  | .ok v => v
  | .error _ => none

/-- Body of `extract_policy_number` inside its try block. -/
def policyNumberBody (t : List Char) : Except Unit (Option (List Char)) :=
  extract_with_patterns [policyNumberP1] false t

/-- Python `InsuranceParser.extract_policy_number`. -/
def extract_policy_number (t : List Char) : Option (List Char) :=
  unitCatch policyNumberBody t

/-- Body of `extract_policyholder`. -/
def policyholderBody (t : List Char) : Except Unit (Option (List Char)) :=
  extract_with_patterns [policyholderP1] false t

/-- Python `InsuranceParser.extract_policyholder`. -/
def extract_policyholder (t : List Char) : Option (List Char) :=
  unitCatch policyholderBody t

/-- Body of `extract_policy_type`. -/
def policyTypeBody (t : List Char) : Except Unit (Option (List Char)) :=
  extract_with_patterns [policyTypeP1] false t

/-- Python `InsuranceParser.extract_policy_type`. -/
def extract_policy_type (t : List Char) : Option (List Char) :=
  unitCatch policyTypeBody t

/-- Python `date_value.replace('-', '/')`. -/
def slashDate (v : List Char) : List Char :=
  v.map fun c => if c == '-' then '/' else c

/-- Body of `extract_effective_date`: match, then reformat separators; the
truthiness test `if date_value` maps an empty capture to `None`. -/
def effectiveDateBody (t : List Char) : Except Unit (Option (List Char)) :=
  match extract_with_patterns [effectiveDateP1, effectiveDateP2, effectiveDateP3] false t with
  | .error e => .error e
  | .ok none => .ok none
  | .ok (some v) => .ok (if v.isEmpty then none else some (slashDate v))

/-- Python `InsuranceParser.extract_effective_date`. -/
def extract_effective_date (t : List Char) : Option (List Char) :=
  unitCatch effectiveDateBody t

/-- Body of `extract_expiration_date`. -/
def expirationDateBody (t : List Char) : Except Unit (Option (List Char)) :=
  match extract_with_patterns [expirationDateP1, expirationDateP2, expirationDateP3] false t with
  | .error e => .error e
  | .ok none => .ok none
  | .ok (some v) => .ok (if v.isEmpty then none else some (slashDate v))

/-- Python `InsuranceParser.extract_expiration_date`. -/
def extract_expiration_date (t : List Char) : Option (List Char) :=
  unitCatch expirationDateBody t

/-- Body of `extract_coverage_amount`. -/
def coverageAmountBody (t : List Char) : Except Unit (Option (List Char)) :=
  extract_with_patterns [coverageAmountP1, coverageAmountP2, coverageAmountP3] true t

/-- Python `InsuranceParser.extract_coverage_amount`. -/
def extract_coverage_amount (t : List Char) : Option (List Char) :=
  unitCatch coverageAmountBody t

/-- Body of `extract_premium`. -/
def premiumBody (t : List Char) : Except Unit (Option (List Char)) :=
  extract_with_patterns [premiumP1, premiumP2, premiumP3] true t

/-- Python `InsuranceParser.extract_premium`. -/
def extract_premium (t : List Char) : Option (List Char) :=
  unitCatch premiumBody t

/-- Body of `extract_total_premium`. -/
def totalPremiumBody (t : List Char) : Except Unit (Option (List Char)) :=
  extract_with_patterns [totalPremiumP1, totalPremiumP2, totalPremiumP3] true t

/-- Python `InsuranceParser.extract_total_premium`. -/
def extract_total_premium (t : List Char) : Option (List Char) :=
  unitCatch totalPremiumBody t

/-- Body of `extract_taxes`. -/
def taxesBody (t : List Char) : Except Unit (Option (List Char)) :=
  extract_with_patterns [taxesP1, taxesP2, taxesP3, taxesP4] true t

/-- Python `InsuranceParser.extract_taxes`. -/
def extract_taxes (t : List Char) : Option (List Char) :=
  unitCatch taxesBody t

/-- Body of `extract_fees`. -/
def feesBody (t : List Char) : Except Unit (Option (List Char)) :=
  extract_with_patterns [feesP1, feesP2, feesP3] true t

/-- Python `InsuranceParser.extract_fees`. -/
def extract_fees (t : List Char) : Option (List Char) :=
  unitCatch feesBody t

/-- Body of `extract_deductible`. -/
def deductibleBody (t : List Char) : Except Unit (Option (List Char)) :=
  extract_with_patterns [deductibleP1, deductibleP2, deductibleP3] true t

/-- Python `InsuranceParser.extract_deductible`. -/
def extract_deductible (t : List Char) : Option (List Char) :=
  unitCatch deductibleBody t

/-- Body of `extract_payment_frequency`: the truthiness test `if frequency`
maps an empty capture to `None`, a nonempty one is lower-cased. -/
def paymentFrequencyBody (t : List Char) : Except Unit (Option (List Char)) :=
  match extract_with_patterns [paymentFrequencyP1, paymentFrequencyP2, paymentFrequencyP3] false t with
  | .error e => .error e
  | .ok none => .ok none
  | .ok (some v) => .ok (if v.isEmpty then none else some (v.map Char.toLower))

/-- Python `InsuranceParser.extract_payment_frequency`. -/
def extract_payment_frequency (t : List Char) : Option (List Char) :=
  unitCatch paymentFrequencyBody t

/-- Body of `extract_copay`. -/
def copayBody (t : List Char) : Except Unit (Option (List Char)) :=
  extract_with_patterns [copayP1, copayP2] true t

/-- Python `InsuranceParser.extract_copay`. -/
def extract_copay (t : List Char) : Option (List Char) :=
  unitCatch copayBody t

/-- The literal section header of `extract_coverage_details`. -/
def coverageHeader : List Char :=
  ['C', 'o', 'v', 'e', 'r', 'a', 'g', 'e', ' ', 'D', 'e', 't', 'a', 'i', 'l', 's', ':']

/-- Case-insensitive prefix test. -/
def ciPrefix : List Char → List Char → Bool
  | [], _ => true
  | _ :: _, [] => false
  | a :: as, b :: bs => a.toLower == b.toLower && ciPrefix as bs

/-- Leftmost case-insensitive occurrence of the section header; returns the
text following it.  This is where `re.search` places the lazy group of
`Coverage Details:(.*?)(?=\n\n|\Z)`. -/
def findHeaderSuffix : List Char → Option (List Char)
  | [] => none
  | c :: r =>
    if ciPrefix coverageHeader (c :: r) then some ((c :: r).drop coverageHeader.length)
    else findHeaderSuffix r

/-- Lazy group content: everything up to the first blank-line boundary (two
consecutive newlines) or the end of text. -/
def upToBlank : List Char → List Char
  | [] => []
  | c :: r => if twoNl (c :: r) then [] else c :: upToBlank r

/-- One match step of `re.findall(r'-\s*(.+)', section)` after a dash has
been found: the greedy whitespace run is consumed (possibly across
newlines), then backtracks just enough for `.+` to capture at least one
non-newline character up to the end of that line. -/
def dashMatch (r : List Char) : Option (List Char × List Char) :=
  let after := r.dropWhile pws
  match after with
  | _ :: _ => some (after.takeWhile (fun c => c != '\n'), after.dropWhile (fun c => c != '\n'))
  | [] =>
    let ws := r.takeWhile pws
    match ws.reverse.dropWhile (fun c => c == '\n') with
    | [] => none
    | _ :: revPre =>
      let tl := ws.drop revPre.length
      some (tl.takeWhile (fun c => c != '\n'), tl.dropWhile (fun c => c != '\n'))

/-- Fuelled scan of the non-overlapping matches of `-\s*(.+)`, left to
right; the fuel only ever needs the length of the text. -/
def findDashItemsF : Nat → List Char → List (List Char)
  | 0, _ => []
  | _ + 1, [] => []
  | n + 1, c :: r =>
    if c == '-' then
      match dashMatch r with
      | some q => q.1 :: findDashItemsF n q.2
      | none => findDashItemsF n r
    else findDashItemsF n r

/-- Python `re.findall(r'-\s*(.+)', section)`. -/
def findDashItems (s : List Char) : List (List Char) :=
  findDashItemsF s.length s

/-- Python `InsuranceParser.extract_coverage_details` (operates on the raw,
unnormalized text). -/
def extract_coverage_details (raw : List Char) : List (List Char) :=
  match findHeaderSuffix raw with
  | some suffix => (findDashItems (upToBlank suffix)).map pyStrip
  | none => []

/-- The fifteen-field record assembled by `InsuranceParser.parse`
(`self.parsed_data` on success).  Absence is `none`. -/
structure ExtractedRecord where
  policy_number : Option (List Char)
  policyholder : Option (List Char)
  policy_type : Option (List Char)
  effective_date : Option (List Char)
  expiration_date : Option (List Char)
  coverage_amount : Option (List Char)
  premium : Option (List Char)
  total_premium : Option (List Char)
  taxes : Option (List Char)
  fees : Option (List Char)
  deductible : Option (List Char)
  payment_frequency : Option (List Char)
  copay : Option (List Char)
  coverage_details : Option (List (List Char))
  parsed_at : Option (List Char)
deriving DecidableEq

/-- The five flags computed by `validate_parsed_data`. -/
structure ValidationResult where
  has_policy_number : Bool
  has_policyholder : Bool
  has_dates : Bool
  has_financial_data : Bool
  is_complete : Bool
deriving DecidableEq

/-- Python truthiness of an optional string (`None` and the empty string are
falsy). -/
def truthy : Option (List Char) → Bool
  | none => false
  | some v => !v.isEmpty

/-- Python `InsuranceParser.validate_parsed_data`.  Note the asymmetry of
the source: the first three flags test `is not None` while
`has_financial_data` uses `any([...])`, i.e. Python truthiness. -/
def validate_parsed_data (r : ExtractedRecord) : ValidationResult :=
  ⟨r.policy_number.isSome,
   r.policyholder.isSome,
   r.effective_date.isSome && r.expiration_date.isSome,
   truthy r.premium || truthy r.coverage_amount || truthy r.total_premium,
   r.policy_number.isSome && r.policyholder.isSome
     && (r.effective_date.isSome && r.expiration_date.isSome)
     && (truthy r.premium || truthy r.coverage_amount || truthy r.total_premium)⟩

/-- Acquisition-stage error kinds (section 7 taxonomy): `FileNotFoundError`,
`PermissionError`, `ImportError` (PDF capability missing), `ValueError`
(unsupported extension) and any other read error. -/
inductive AcqError where
  | fileNotFound
  | permissionDenied
  | importErr
  | valueErr
  | readErr
deriving DecidableEq

/-- Environment of the parser: what reading a text file and opening a PDF
would produce for each path (pages may yield no text, as
`page.extract_text()` may return `None`). -/
structure FileSys where
  readText : List Char → Except AcqError (List Char)
  pdfPages : List Char → Except AcqError (List (Option (List Char)))

/-- Python `Path(file_path).suffix`: the extension of the final path
component; empty if the final component has no dot, starts with its only
dot, or ends with the dot. -/
def pathSuffix (p : List Char) : List Char :=
  let name := (p.reverse.takeWhile (fun c => c != '/')).reverse
  let ext := (name.reverse.takeWhile (fun c => c != '.')).reverse
  match name.reverse.dropWhile (fun c => c != '.') with
  | _ :: _ :: _ => if ext.isEmpty then [] else '.' :: ext
  | _ => []

/-- Python `extract_text_from_file`: dispatch on the lower-cased suffix;
PDF pages that yield no text (or empty text) contribute nothing, the rest
are joined with newlines; unsupported extensions raise `ValueError`. -/
def extract_text_from_file (pdfSupport : Bool) (fs : FileSys) (file_path : List Char) :
    Except AcqError (List Char) :=
  let ext := (pathSuffix file_path).map Char.toLower
  if ext = ['.', 'p', 'd', 'f'] then
    if !pdfSupport then .error .importErr
    else
      match fs.pdfPages file_path with
      | .error e => .error e
      | .ok pages => .ok (joinNl ((pages.filterMap id).filter (fun t => !t.isEmpty)))
  else if ext = ['.', 't', 'x', 't'] then fs.readText file_path
  else .error .valueErr

/-- How `read_document` re-raises acquisition errors: file-not-found,
permission and import errors keep their kind (with a new message), anything
else is wrapped in a generic exception. -/
def remapAcqErr : AcqError → AcqError
  | .fileNotFound => .fileNotFound
  | .permissionDenied => .permissionDenied
  | .importErr => .importErr
  | _ => .readErr

/-- Python `InsuranceParser.read_document`: acquire the raw text, then set
the normalized text. -/
def read_document (pdfSupport : Bool) (fs : FileSys) (file_path : List Char) :
    Except AcqError (List Char × List Char) :=
  match extract_text_from_file pdfSupport fs file_path with
  | .error e => .error (remapAcqErr e)
  | .ok raw => .ok (raw, normalize_text raw)

/-- Python `InsuranceParser.get_default_structure`: every field is `None`,
including `coverage_details`. -/
def get_default_structure : ExtractedRecord :=
  ⟨none, none, none, none, none, none, none, none, none, none, none, none, none, none, none⟩

/-- The record built by the success branch of `parse` (scalar extractors on
the normalized text, coverage details on the raw text, a timestamp). -/
def assembleRecord (raw norm now : List Char) : ExtractedRecord :=
  ⟨extract_policy_number norm, extract_policyholder norm, extract_policy_type norm,
   extract_effective_date norm, extract_expiration_date norm, extract_coverage_amount norm,
   extract_premium norm, extract_total_premium norm, extract_taxes norm, extract_fees norm,
   extract_deductible norm, extract_payment_frequency norm, extract_copay norm,
   some (extract_coverage_details raw), some now⟩

/-- The value of `self.parsed_data` after `parse` returns: it is only
assigned on the success path, so a failed acquisition leaves the initial
empty dict (modelled as `none`). -/
def parse_parsed_data (pdfSupport : Bool) (fs : FileSys) (file_path now : List Char) :
    Option ExtractedRecord :=
  match read_document pdfSupport fs file_path with
  | .error _ => none
  | .ok q => some (assembleRecord q.1 q.2 now)

/-- Python `InsuranceParser.parse`: any acquisition error is caught and the
default structure returned instead. -/
def parse (pdfSupport : Bool) (fs : FileSys) (file_path now : List Char) : ExtractedRecord :=
  match parse_parsed_data pdfSupport fs file_path now with
  | none => get_default_structure
  | some r => r

/-- The fifteen field names of the record, in source order. -/
def fieldNames : List (List Char) :=
  [['p', 'o', 'l', 'i', 'c', 'y', '_', 'n', 'u', 'm', 'b', 'e', 'r'],
   ['p', 'o', 'l', 'i', 'c', 'y', 'h', 'o', 'l', 'd', 'e', 'r'],
   ['p', 'o', 'l', 'i', 'c', 'y', '_', 't', 'y', 'p', 'e'],
   ['e', 'f', 'f', 'e', 'c', 't', 'i', 'v', 'e', '_', 'd', 'a', 't', 'e'],
   ['e', 'x', 'p', 'i', 'r', 'a', 't', 'i', 'o', 'n', '_', 'd', 'a', 't', 'e'],
   ['c', 'o', 'v', 'e', 'r', 'a', 'g', 'e', '_', 'a', 'm', 'o', 'u', 'n', 't'],
   ['p', 'r', 'e', 'm', 'i', 'u', 'm'],
   ['t', 'o', 't', 'a', 'l', '_', 'p', 'r', 'e', 'm', 'i', 'u', 'm'],
   ['t', 'a', 'x', 'e', 's'],
   ['f', 'e', 'e', 's'],
   ['d', 'e', 'd', 'u', 'c', 't', 'i', 'b', 'l', 'e'],
   ['p', 'a', 'y', 'm', 'e', 'n', 't', '_', 'f', 'r', 'e', 'q', 'u', 'e', 'n', 'c', 'y'],
   ['c', 'o', 'p', 'a', 'y'],
   ['c', 'o', 'v', 'e', 'r', 'a', 'g', 'e', '_', 'd', 'e', 't', 'a', 'i', 'l', 's'],
   ['p', 'a', 'r', 's', 'e', 'd', '_', 'a', 't']]

/-- The keys of the JSON object written by `save_to_json`, which dumps
`self.parsed_data`: the fifteen keys after a successful parse, none at all
when `parsed_data` is still the initial empty dict. -/
def save_to_json_keys : Option ExtractedRecord → List (List Char)
  | none => []
  | some _ => fieldNames

/-- Condition on one line of a coverage-details section under which the
claimed line-based reading agrees with the code: a dash may occur only as
the first character of the line, and a line-initial dash must be followed by
some non-whitespace character on the same line. -/
def goodDashLine : List Char → Bool
  | '-' :: rest => rest.any (fun c => !pws c)
  | l => l.all (fun c => c != '-')

/-- Modelled from the claim text of the specification (section 4.4): the
item a line contributes when it begins with a dash marker, the marker
stripped and surrounding whitespace trimmed. -/
def specDashItem : List Char → Option (List Char)
  | '-' :: rest => some (pyStrip rest)
  | _ => none

/-- The item a line of a section contributes in the code before the final
trim, when scanning stays within lines: the text after the line-initial
dash (and any following whitespace) up to the end of the line. -/
def codeDashItem : List Char → Option (List Char)
  | '-' :: rest => some (rest.dropWhile pws)
  | _ => none

/-- Modelled from the claim text of the specification (section 4.4): the
items are the lines of the section that begin with a dash marker, with the
marker stripped and surrounding whitespace trimmed; empty when the header is
absent. -/
def coverageDetailsSpec (raw : List Char) : List (List Char) :=
  match findHeaderSuffix raw with
  | none => []
  | some suffix => (splitNl (upToBlank suffix)).filterMap specDashItem

/-- Modelled from the claim text of the specification (section 8): a plain
decimal number, optionally with exactly two fractional digits, i.e. the
shape of a match of `\d+(\.\d{2})?`. -/
def plainDecimalShape (v : List Char) : Bool :=
  let ds := v.takeWhile Char.isDigit
  !ds.isEmpty &&
    (match v.drop ds.length with
     | [] => true
     | ['.', a, b] => a.isDigit && b.isDigit
     | _ => false)

/-- The shape the code actually guarantees for a cleaned numeric capture: a
possibly empty run of digits, optionally followed by a point and exactly two
digits (the digit run is empty when the capture consisted of commas only). -/
def cleanedNumShape (v : List Char) : Bool :=
  match v.drop (v.takeWhile Char.isDigit).length with
  | [] => true
  | ['.', a, b] => a.isDigit && b.isDigit
  | _ => false

/-- A file system in which every access fails: the file is missing. -/
def fsAbsent : FileSys :=
  ⟨fun _ => .error .fileNotFound, fun _ => .error .fileNotFound⟩

/-- A file system holding one readable text whose content is the single
character A. -/
def fsOneTxt : FileSys :=
  ⟨fun _ => .ok ['A'], fun _ => .error .fileNotFound⟩

/-- The path doc.docx, whose extension is unsupported. -/
def docxPath : List Char :=
  ['d', 'o', 'c', '.', 'd', 'o', 'c', 'x']

/-- The path a.txt. -/
def txtPath : List Char :=
  ['a', '.', 't', 'x', 't']

/-- Raw text whose coverage-details section has a dash in the middle of a
line: the header followed by one line reading fire - damage. -/
def rawMidDash : List Char :=
  coverageHeader ++ ['\n', 'f', 'i', 'r', 'e', ' ', '-', ' ', 'd', 'a', 'm', 'a', 'g', 'e']

/-- Raw text with a well-formed coverage-details section: two dash-initial
lines, a blank line, then unrelated text. -/
def rawTwoItems : List Char :=
  coverageHeader ++ ['\n', '-', ' ', 'f', 'i', 'r', 'e', '\n', '-', ' ', 't', 'h', 'e', 'f', 't',
    '\n', '\n', 'o', 't', 'h', 'e', 'r']

/-- The section suffix of `rawTwoItems` after its header. -/
def sufTwoItems : List Char :=
  ['\n', '-', ' ', 'f', 'i', 'r', 'e', '\n', '-', ' ', 't', 'h', 'e', 'f', 't',
    '\n', '\n', 'o', 't', 'h', 'e', 'r']

/-- The normalized text reading Premium: $5. -/
def tPremiumFive : List Char :=
  ['P', 'r', 'e', 'm', 'i', 'u', 'm', ':', ' ', '$', '5']

/-- The normalized text reading Premium: followed by a bare comma, on which
the numeric capture consists of the comma alone. -/
def tPremiumComma : List Char :=
  ['P', 'r', 'e', 'm', 'i', 'u', 'm', ':', ' ', ',']

/-- The normalized text reading Premium: $1,200.00. -/
def tPremiumAmount : List Char :=
  ['P', 'r', 'e', 'm', 'i', 'u', 'm', ':', ' ', '$', '1', ',', '2', '0', '0', '.', '0', '0']

/-- The normalized text reading Monthly Payment, which only the group-less
third payment-frequency pattern matches. -/
def tMonthlyPayment : List Char :=
  ['M', 'o', 'n', 't', 'h', 'l', 'y', ' ', 'P', 'a', 'y', 'm', 'e', 'n', 't']

/-- A record that is absent everywhere except for a present-but-empty
premium value, as `parse` produces on a document reading Premium: comma. -/
def recEmptyPremium : ExtractedRecord :=
  ⟨none, none, none, none, none, none, some [], none, none, none, none, none, none, none, none⟩

/-!
Lemmas about splitting, joining, stripping and newline collapsing, leading
to idempotence of `normalize_text` and its output invariants.
-/

theorem splitOnP_ne_nil (p : Char → Bool) (s : List Char) : splitOnP p s ≠ [] := by
  induction s with
  | nil => simp [splitOnP]
  | cons c r ih =>
    by_cases h : p c
    · simp [splitOnP, h]
    · simp only [splitOnP, h, if_false]
      cases hh : splitOnP p r <;> simp

theorem splitOnP_pieces_not (p : Char → Bool) (s : List Char) :
    ∀ l ∈ splitOnP p s, ∀ c ∈ l, p c = false := by
  induction s with
  | nil =>
    intro l hl c hc
    simp [splitOnP] at hl
    subst hl
    simp at hc
  | cons a r ih =>
    intro l hl c hc
    by_cases h : p a
    · simp only [splitOnP, h, if_true, List.mem_cons] at hl
      rcases hl with rfl | hl
      · simp at hc
      · exact ih l hl c hc
    · simp only [splitOnP, h, if_false] at hl
      rcases hh : splitOnP p r with _ | ⟨l0, ls0⟩
      · exact absurd hh (splitOnP_ne_nil p r)
      · rw [hh] at hl
        rcases List.mem_cons.1 hl with rfl | hl2
        · rcases List.mem_cons.1 hc with rfl | hc2
          · simpa using h
          · exact ih l0 (by simp [hh]) c hc2
        · exact ih l (by simp [hh, hl2]) c hc

theorem joinSep_cons_cons (sep c : Char) (l : List Char) (ls : List (List Char)) :
    joinSep sep ((c :: l) :: ls) = c :: joinSep sep (l :: ls) := by
  cases ls <;> simp [joinSep]

theorem joinSep_nil_cons (sep : Char) (m : List Char) (ls : List (List Char)) :
    joinSep sep ([] :: m :: ls) = sep :: joinSep sep (m :: ls) := by
  simp [joinSep]

theorem joinSep_splitOnP (p : Char → Bool) (sep : Char) (hp : ∀ c, p c = true → c = sep)
    (s : List Char) : joinSep sep (splitOnP p s) = s := by
  induction s with
  | nil => simp [splitOnP, joinSep]
  | cons c r ih =>
    by_cases h : p c
    · have hc : c = sep := hp c h
      rcases hh : splitOnP p r with _ | ⟨m, ls⟩
      · exact absurd hh (splitOnP_ne_nil p r)
      · rw [splitOnP, if_pos h, hh, joinSep_nil_cons, ← hh, ih, hc]
    · rcases hh : splitOnP p r with _ | ⟨m, ls⟩
      · exact absurd hh (splitOnP_ne_nil p r)
      · rw [splitOnP, if_neg h, hh, joinSep_cons_cons, ← hh, ih]

theorem splitOnP_of_forall_not (p : Char → Bool) (l : List Char)
    (h : ∀ c ∈ l, p c = false) : splitOnP p l = [l] := by
  induction l with
  | nil => simp [splitOnP]
  | cons c r ih =>
    have hc : p c = false := h c (by simp)
    have hr := ih fun d hd => h d (by simp [hd])
    simp [splitOnP, hc, hr]

theorem splitOnP_append_sep (p : Char → Bool) (sep : Char) (hsep : p sep = true)
    (l w : List Char) (h : ∀ c ∈ l, p c = false) :
    splitOnP p (l ++ sep :: w) = l :: splitOnP p w := by
  induction l with
  | nil => simp [splitOnP, hsep]
  | cons c r ih =>
    have hc : p c = false := h c (by simp)
    have hr := ih fun d hd => h d (by simp [hd])
    show splitOnP p (c :: (r ++ sep :: w)) = (c :: r) :: splitOnP p w
    rw [splitOnP, if_neg (by simp [hc]), hr]

theorem splitOnP_joinSep (p : Char → Bool) (sep : Char) (hsep : p sep = true)
    (ls : List (List Char)) (hne : ls ≠ [])
    (h : ∀ l ∈ ls, ∀ c ∈ l, p c = false) :
    splitOnP p (joinSep sep ls) = ls := by
  induction ls with
  | nil => exact absurd rfl hne
  | cons l ls ih =>
    cases ls with
    | nil =>
      simp only [joinSep]
      exact splitOnP_of_forall_not p l (h l (by simp))
    | cons m ls2 =>
      have : joinSep sep (l :: m :: ls2) = l ++ sep :: joinSep sep (m :: ls2) := by
        simp [joinSep]
      rw [this, splitOnP_append_sep p sep hsep l _ (h l (by simp))]
      rw [ih (by simp) fun x hx c hc => h x (by simp [hx]) c hc]

theorem pySplitWs_tokens (s : List Char) :
    ∀ t ∈ pySplitWs s, t ≠ [] ∧ ∀ c ∈ t, pws c = false := by
  intro t ht
  have h1 := List.mem_filter.1 ht
  refine ⟨by simpa using h1.2, fun c hc => splitOnP_pieces_not pws s t h1.1 c hc⟩

theorem pySplitWs_joinSpace (ts : List (List Char))
    (h : ∀ t ∈ ts, t ≠ [] ∧ ∀ c ∈ t, pws c = false) :
    pySplitWs (joinSpace ts) = ts := by
  cases ts with
  | nil => simp [joinSpace, joinSep, pySplitWs, splitOnP]
  | cons t ts2 =>
    unfold pySplitWs
    rw [show joinSpace (t :: ts2) = joinSep ' ' (t :: ts2) from rfl]
    rw [splitOnP_joinSep pws ' ' (by decide) (t :: ts2) (by simp)
      (fun l hl c hc => (h l hl).2 c hc)]
    rw [List.filter_eq_self.2]
    intro a ha
    simpa using (h a ha).1

theorem joinSep_head? (sep : Char) (t : List Char) (ts : List (List Char)) (ht : t ≠ []) :
    (joinSep sep (t :: ts)).head? = t.head? := by
  cases ts with
  | nil => simp [joinSep]
  | cons m ls =>
    rcases t with _ | ⟨c, r⟩
    · exact absurd rfl ht
    · simp [joinSep]

theorem joinSep_getLast? (sep : Char) (ts : List (List Char))
    (h : ∀ t ∈ ts, t ≠ []) (hne : ts ≠ []) :
    ∃ t ∈ ts, (joinSep sep ts).getLast? = t.getLast? := by
  induction ts with
  | nil => exact absurd rfl hne
  | cons t ts2 ih =>
    cases ts2 with
    | nil => exact ⟨t, by simp, by simp [joinSep]⟩
    | cons m ls =>
      obtain ⟨x, hx, hlast⟩ := ih (fun a ha => h a (by simp [ha])) (by simp)
      refine ⟨x, by simp [hx], ?_⟩
      have hjoin : joinSep sep (t :: m :: ls) = t ++ sep :: joinSep sep (m :: ls) := by
        simp [joinSep]
      have hm : m ≠ [] := h m (by simp)
      have hhead : (joinSep sep (m :: ls)).head? = m.head? := joinSep_head? sep m ls hm
      rcases hJ : joinSep sep (m :: ls) with _ | ⟨j, js⟩
      · rw [hJ] at hhead
        rcases m with _ | ⟨mc, mr⟩
        · exact absurd rfl hm
        · simp at hhead
      · rw [hjoin, hJ, List.getLast?_append_cons, List.getLast?_cons_cons]
        rw [hJ] at hlast
        exact hlast

theorem dropWhile_eq_self_of_head (p : Char → Bool) (s : List Char)
    (h : ∀ c, s.head? = some c → p c = false) : s.dropWhile p = s := by
  cases s with
  | nil => rfl
  | cons c r => simp [List.dropWhile_cons, h c rfl]

theorem pyStrip_eq_self (s : List Char)
    (h1 : ∀ c, s.head? = some c → pws c = false)
    (h2 : ∀ c, s.getLast? = some c → pws c = false) : pyStrip s = s := by
  unfold pyStrip
  rw [dropWhile_eq_self_of_head pws s h1]
  rw [dropWhile_eq_self_of_head pws s.reverse (by simpa using h2)]
  exact s.reverse_reverse

theorem pyStrip_joinSpace (ts : List (List Char))
    (h : ∀ t ∈ ts, t ≠ [] ∧ ∀ c ∈ t, pws c = false) :
    pyStrip (joinSpace ts) = joinSpace ts := by
  cases ts with
  | nil => rfl
  | cons t ts2 =>
    apply pyStrip_eq_self
    · intro c hc
      rw [show joinSpace (t :: ts2) = joinSep ' ' (t :: ts2) from rfl] at hc
      rw [joinSep_head? ' ' t ts2 (h t (by simp)).1] at hc
      exact (h t (by simp)).2 c (List.mem_of_mem_head? hc)
    · intro c hc
      rw [show joinSpace (t :: ts2) = joinSep ' ' (t :: ts2) from rfl] at hc
      obtain ⟨x, hx, hlast⟩ :=
        joinSep_getLast? ' ' (t :: ts2) (fun a ha => (h a ha).1) (by simp)
      rw [hlast] at hc
      exact (h x hx).2 c (List.mem_of_mem_getLast? hc)

theorem cleanLine_idem (l : List Char) : cleanLine (cleanLine l) = cleanLine l := by
  unfold cleanLine
  rw [pyStrip_joinSpace _ (pySplitWs_tokens (pyStrip l))]
  rw [pySplitWs_joinSpace _ (pySplitWs_tokens (pyStrip l))]

theorem mem_joinSep (sep c : Char) (ts : List (List Char)) (h : c ∈ joinSep sep ts) :
    c = sep ∨ ∃ t ∈ ts, c ∈ t := by
  induction ts with
  | nil => simp [joinSep] at h
  | cons t ts2 ih =>
    cases ts2 with
    | nil =>
      right
      exact ⟨t, by simp, by simpa [joinSep] using h⟩
    | cons m ls =>
      rw [show joinSep sep (t :: m :: ls) = t ++ sep :: joinSep sep (m :: ls) from by
        simp [joinSep]] at h
      rcases List.mem_append.1 h with h1 | h1
      · exact Or.inr ⟨t, by simp, h1⟩
      · rcases List.mem_cons.1 h1 with rfl | h2
        · exact Or.inl rfl
        · rcases ih h2 with h3 | ⟨x, hx, hcx⟩
          · exact Or.inl h3
          · exact Or.inr ⟨x, by simp [hx], hcx⟩

theorem cleanLine_no_nl (l : List Char) : ∀ c ∈ cleanLine l, (c == '\n') = false := by
  intro c hc
  unfold cleanLine at hc
  rcases mem_joinSep ' ' c (pySplitWs (pyStrip l)) hc with rfl | ⟨t, ht, hct⟩
  · decide
  · have := (pySplitWs_tokens (pyStrip l) t ht).2 c hct
    have hne : c ≠ '\n' := by
      intro hcn
      rw [hcn] at this
      simp [pws] at this
    simpa using hne

theorem splitNl_cons_nl (r : List Char) : splitNl ('\n' :: r) = [] :: splitNl r := by
  simp [splitNl, splitOnP]

theorem splitNl_cons_struct (c : Char) (r : List Char) (h : (c == '\n') = false) :
    ∃ hd tl, splitNl r = hd :: tl ∧ splitNl (c :: r) = (c :: hd) :: tl := by
  rcases hh : splitNl r with _ | ⟨hd, tl⟩
  · exact absurd hh (splitOnP_ne_nil _ r)
  · refine ⟨hd, tl, rfl, ?_⟩
    unfold splitNl at hh ⊢
    rw [splitOnP, if_neg (by simp [h]), hh]

theorem splitNl_head? (s : List Char) :
    (splitNl s).head? = some (s.takeWhile (fun c => c != '\n')) := by
  induction s with
  | nil => simp [splitNl, splitOnP]
  | cons c r ih =>
    by_cases h : (c == '\n') = true
    · have hc : c = '\n' := by simpa using h
      subst hc
      rw [splitNl_cons_nl]
      simp
    · obtain ⟨hd, tl, h1, h2⟩ := splitNl_cons_struct c r (by simpa using h)
      rw [h2]
      rw [h1] at ih
      simp only [List.head?_cons, Option.some.injEq] at ih ⊢
      rw [List.takeWhile_cons, if_pos (by simpa using h)]
      rw [ih]

theorem joinNl_splitNl (s : List Char) : joinNl (splitNl s) = s := by
  unfold joinNl splitNl
  exact joinSep_splitOnP _ '\n' (fun c h => by simpa using h) s

theorem splitNl_joinNl (ls : List (List Char)) (hne : ls ≠ [])
    (h : ∀ l ∈ ls, ∀ c ∈ l, (c == '\n') = false) : splitNl (joinNl ls) = ls := by
  unfold joinNl splitNl
  exact splitOnP_joinSep _ '\n' (by decide) ls hne h

theorem hasRun3_cons (c : Char) (x : List Char) :
    hasRun3 (c :: x) = (((c == '\n') && twoNl x) || hasRun3 x) := rfl

theorem hasRun3_append_right (a b : List Char) (h : hasRun3 (a ++ b) = false) :
    hasRun3 b = false := by
  induction a with
  | nil => exact h
  | cons c r ih =>
    rw [List.cons_append, hasRun3_cons] at h
    simp only [Bool.or_eq_false_iff] at h
    exact ih h.2

theorem collapseNlA_nl_big (k : Nat) (r : List Char) (hk : 2 ≤ k) :
    collapseNlA k ('\n' :: r) = collapseNlA k r := by
  simp [collapseNlA, hk]

theorem collapseNlA_nl_small (k : Nat) (r : List Char) (hk : ¬ 2 ≤ k) :
    collapseNlA k ('\n' :: r) = '\n' :: collapseNlA (k + 1) r := by
  simp [collapseNlA, hk]

theorem collapseNlA_other (k : Nat) (c : Char) (r : List Char) (hc : (c == '\n') = false) :
    collapseNlA k (c :: r) = c :: collapseNlA 0 r := by
  simp [collapseNlA, hc]

theorem collapseNlA_takeWhile (s : List Char) :
    (collapseNlA 0 s).takeWhile (fun c => c != '\n') = s.takeWhile (fun c => c != '\n') := by
  induction s with
  | nil => rfl
  | cons c r ih =>
    by_cases h : (c == '\n') = true
    · have hc : c = '\n' := by simpa using h
      subst hc
      rw [collapseNlA_nl_small 0 r (by decide)]
      simp [List.takeWhile_cons]
    · rw [collapseNlA_other 0 c r (by simpa using h)]
      have hp : (c != '\n') = true := by simp [bne, h]
      rw [List.takeWhile_cons, List.takeWhile_cons, if_pos hp, if_pos hp, ih]

theorem cleanLine_nil : cleanLine [] = [] := by decide

theorem collapseNlA_firstline_clean (s : List Char) (k : Nat)
    (h : ∀ l ∈ splitNl s, cleanLine l = l) :
    cleanLine ((collapseNlA k s).takeWhile (fun c => c != '\n'))
      = (collapseNlA k s).takeWhile (fun c => c != '\n') := by
  induction s generalizing k with
  | nil => simpa using cleanLine_nil
  | cons c r ih =>
    by_cases hc : (c == '\n') = true
    · have hcc : c = '\n' := by simpa using hc
      subst hcc
      by_cases hk : 2 ≤ k
      · rw [collapseNlA_nl_big k r hk]
        apply ih
        intro l hl
        apply h
        rw [splitNl_cons_nl]
        simp [hl]
      · rw [collapseNlA_nl_small k r hk]
        simpa [List.takeWhile_cons] using cleanLine_nil
    · rw [collapseNlA_other k c r (by simpa using hc)]
      have hp : (c != '\n') = true := by simp [bne, hc]
      rw [List.takeWhile_cons, if_pos hp, collapseNlA_takeWhile r]
      have hhead := splitNl_head? (c :: r)
      have hmem : ((c :: r).takeWhile (fun c => c != '\n')) ∈ splitNl (c :: r) :=
        List.mem_of_mem_head? (Option.mem_def.mpr hhead)
      have hclean := h _ hmem
      rw [List.takeWhile_cons, if_pos hp] at hclean
      exact hclean

theorem collapseNlA_taillines_clean (s : List Char) (k : Nat)
    (h : ∀ l ∈ (splitNl s).tail, cleanLine l = l) :
    ∀ l ∈ (splitNl (collapseNlA k s)).tail, cleanLine l = l := by
  induction s generalizing k with
  | nil =>
    intro l hl
    simp [collapseNlA, splitNl, splitOnP] at hl
  | cons c r ih =>
    by_cases hc : (c == '\n') = true
    · have hcc : c = '\n' := by simpa using hc
      subst hcc
      have hall : ∀ l ∈ splitNl r, cleanLine l = l := by
        intro x hx
        apply h
        rw [splitNl_cons_nl]
        simpa using hx
      by_cases hk : 2 ≤ k
      · rw [collapseNlA_nl_big k r hk]
        apply ih
        intro l hl
        exact hall l (List.mem_of_mem_tail hl)
      · rw [collapseNlA_nl_small k r hk]
        rw [splitNl_cons_nl]
        intro l hl
        simp only [List.tail_cons] at hl
        rcases hsp : splitNl (collapseNlA (k + 1) r) with _ | ⟨hd, tl⟩
        · exact absurd hsp (splitOnP_ne_nil _ _)
        · rw [hsp] at hl
          rcases List.mem_cons.1 hl with rfl | htl
          · have hh := splitNl_head? (collapseNlA (k + 1) r)
            rw [hsp] at hh
            simp only [List.head?_cons, Option.some.injEq] at hh
            rw [hh]
            exact collapseNlA_firstline_clean r (k + 1) hall
          · have := ih (k + 1) (fun x hx => hall x (List.mem_of_mem_tail hx))
            apply this
            rw [hsp]
            simpa using htl
    · obtain ⟨hd, tl, h1, h2⟩ := splitNl_cons_struct c r (by simpa using hc)
      rw [collapseNlA_other k c r (by simpa using hc)]
      obtain ⟨hd2, tl2, h3, h4⟩ := splitNl_cons_struct c (collapseNlA 0 r) (by simpa using hc)
      rw [h4]
      intro l hl
      simp only [List.tail_cons] at hl
      apply ih 0 ?_ l ?_
      · intro x hx
        apply h
        rw [h2]
        simp only [List.tail_cons]
        rw [h1] at hx
        simpa using hx
      · rw [h3]
        simpa using hl

theorem collapseNl_lines_clean (s : List Char)
    (h : ∀ l ∈ splitNl s, cleanLine l = l) :
    ∀ l ∈ splitNl (collapseNl s), cleanLine l = l := by
  intro l hl
  rcases hsp : splitNl (collapseNl s) with _ | ⟨hd, tl⟩
  · exact absurd hsp (splitOnP_ne_nil _ _)
  · rw [hsp] at hl
    rcases List.mem_cons.1 hl with rfl | htl
    · have hh := splitNl_head? (collapseNl s)
      rw [hsp] at hh
      simp only [List.head?_cons, Option.some.injEq] at hh
      rw [hh]
      exact collapseNlA_firstline_clean s 0 h
    · apply collapseNlA_taillines_clean s 0 (fun x hx => h x (List.mem_of_mem_tail hx))
      rw [show collapseNlA 0 s = collapseNl s from rfl, hsp]
      simpa using htl

theorem twoNl_eq_false_of_head (y : List Char)
    (hhead : ∀ c, y.head? = some c → (c == '\n') = false) : twoNl y = false := by
  cases y with
  | nil => rfl
  | cons a b =>
    have ha := hhead a rfl
    cases b with
    | nil => rfl
    | cons b2 r => simp [twoNl, ha]

theorem hasRun3_nlcons (y : List Char) (h1 : hasRun3 y = false)
    (hhead : ∀ c, y.head? = some c → (c == '\n') = false) :
    hasRun3 ('\n' :: y) = false := by
  rw [hasRun3_cons, twoNl_eq_false_of_head y hhead]
  simp [h1]

theorem hasRun3_replicate_le2 (m : Nat) (hm : m ≤ 2) (y : List Char)
    (hy : hasRun3 y = false) (hhead : ∀ c, y.head? = some c → (c == '\n') = false) :
    hasRun3 (List.replicate m '\n' ++ y) = false := by
  match m, hm with
  | 0, _ => simpa using hy
  | 1, _ =>
    simp only [List.replicate_succ, List.replicate_zero, List.cons_append, List.nil_append]
    exact hasRun3_nlcons y hy hhead
  | 2, _ =>
    simp only [List.replicate_succ, List.replicate_zero, List.cons_append, List.nil_append]
    have hin : hasRun3 ('\n' :: y) = false := hasRun3_nlcons y hy hhead
    rw [hasRun3_cons, hin]
    have htwo : twoNl ('\n' :: y) = false := by
      cases y with
      | nil => rfl
      | cons c r =>
        have := hhead c rfl
        simp [twoNl, this]
    simp [htwo]

theorem collapseNlA_noRun3 (s : List Char) (k : Nat) :
    hasRun3 (List.replicate (min k 2) '\n' ++ collapseNlA k s) = false := by
  induction s generalizing k with
  | nil =>
    apply hasRun3_replicate_le2 (min k 2) (Nat.min_le_right k 2)
    · rfl
    · intro c hc
      simp [collapseNlA] at hc
  | cons c r ih =>
    by_cases hc : (c == '\n') = true
    · have hcc : c = '\n' := by simpa using hc
      subst hcc
      by_cases hk : 2 ≤ k
      · rw [collapseNlA_nl_big k r hk]
        exact ih k
      · rw [collapseNlA_nl_small k r hk]
        have hm : min k 2 = k := by omega
        have hm2 : min (k + 1) 2 = k + 1 := by omega
        have hstep : List.replicate (k + 1) '\n' ++ collapseNlA (k + 1) r
            = List.replicate k '\n' ++ '\n' :: collapseNlA (k + 1) r := by
          rw [List.replicate_succ', List.append_assoc]
          rfl
        rw [hm]
        have := ih (k + 1)
        rw [hm2, hstep] at this
        exact this
    · rw [collapseNlA_other k c r (by simpa using hc)]
      apply hasRun3_replicate_le2 (min k 2) (Nat.min_le_right k 2)
      · rw [hasRun3_cons]
        have := ih 0
        simp only [Nat.zero_min, List.replicate_zero, List.nil_append] at this
        simp [hc, this]
      · intro d hd
        simp only [List.head?_cons, Option.some.injEq] at hd
        subst hd
        simpa using hc

theorem collapseNlA_eq_self (s : List Char) (k : Nat)
    (h : hasRun3 (List.replicate (min k 2) '\n' ++ s) = false) : collapseNlA k s = s := by
  induction s generalizing k with
  | nil => rfl
  | cons c r ih =>
    by_cases hc : (c == '\n') = true
    · have hcc : c = '\n' := by simpa using hc
      subst hcc
      by_cases hk : 2 ≤ k
      · exfalso
        have hm : min k 2 = 2 := by omega
        rw [hm] at h
        simp [List.replicate_succ, hasRun3_cons, twoNl] at h
      · rw [collapseNlA_nl_small k r hk]
        congr 1
        apply ih (k + 1)
        have hm : min k 2 = k := by omega
        have hm2 : min (k + 1) 2 = k + 1 := by omega
        rw [hm] at h
        rw [hm2, List.replicate_succ', List.append_assoc]
        exact h
    · rw [collapseNlA_other k c r (by simpa using hc)]
      congr 1
      apply ih 0
      have hsuffix := hasRun3_append_right _ _ h
      rw [hasRun3_cons] at hsuffix
      simp only [Bool.or_eq_false_iff] at hsuffix
      simpa using hsuffix.2

theorem collapseNl_noRun3 (s : List Char) : hasRun3 (collapseNl s) = false := by
  have h := collapseNlA_noRun3 s 0
  simpa using h

theorem collapseNl_of_noRun3 (s : List Char) (h : hasRun3 s = false) : collapseNl s = s :=
  collapseNlA_eq_self s 0 (by simpa using h)

theorem normalize_text_noRun3 (s : List Char) : hasRun3 (normalize_text s) = false := by
  unfold normalize_text
  exact collapseNl_noRun3 _

theorem normalize_text_lines_clean (s : List Char) :
    ∀ l ∈ splitNl (normalize_text s), cleanLine l = l := by
  unfold normalize_text
  apply collapseNl_lines_clean
  have hne : (splitNl s).map cleanLine ≠ [] := by
    intro hmap
    exact splitOnP_ne_nil _ s (List.map_eq_nil_iff.1 hmap)
  have hnl : ∀ l ∈ (splitNl s).map cleanLine, ∀ c ∈ l, (c == '\n') = false := by
    intro l hl c hc
    obtain ⟨x, hx, rfl⟩ := List.mem_map.1 hl
    exact cleanLine_no_nl x c hc
  rw [splitNl_joinNl _ hne hnl]
  intro l hl
  obtain ⟨x, hx, rfl⟩ := List.mem_map.1 hl
  exact cleanLine_idem x

theorem normalize_text_idem (s : List Char) :
    normalize_text (normalize_text s) = normalize_text s := by
  have hclean := normalize_text_lines_clean s
  have hmap : (splitNl (normalize_text s)).map cleanLine = splitNl (normalize_text s) := by
    have h2 : ∀ a ∈ splitNl (normalize_text s), cleanLine a = id a := by simpa using hclean
    rw [List.map_congr_left h2, List.map_id]
  show collapseNl (joinNl ((splitNl (normalize_text s)).map cleanLine)) = normalize_text s
  rw [hmap, joinNl_splitNl]
  exact collapseNl_of_noRun3 _ (normalize_text_noRun3 s)

theorem cleanLine_fix_strip (l : List Char) (h : cleanLine l = l) : pyStrip l = l := by
  conv_lhs => rw [← h]
  show pyStrip (joinSpace (pySplitWs (pyStrip l))) = l
  rw [pyStrip_joinSpace _ (pySplitWs_tokens (pyStrip l))]
  exact h

theorem normalize_text_lines_strip (s : List Char) :
    ∀ l ∈ splitNl (normalize_text s), pyStrip l = l :=
  fun l hl => cleanLine_fix_strip l (normalize_text_lines_clean s l hl)

/-!
Lemmas about the pattern engine: first-match-wins semantics of
`_extract_with_patterns`, and the language of the numeric capture group.
-/

theorem extract_with_patterns_cons_match (p : RE) (ps : List RE) (cn : Bool) (t : List Char)
    (cap : Option (List Char)) (h : reSearch p t = some cap) :
    extract_with_patterns (p :: ps) cn t = extractOne p cap cn := by
  show (match reSearch p t with
    | some cap => extractOne p cap cn
    | none => extract_with_patterns ps cn t) = extractOne p cap cn
  rw [h]

theorem extract_with_patterns_cons_fail (p : RE) (ps : List RE) (cn : Bool) (t : List Char)
    (h : reSearch p t = none) :
    extract_with_patterns (p :: ps) cn t = extract_with_patterns ps cn t := by
  show (match reSearch p t with
    | some cap => extractOne p cap cn
    | none => extract_with_patterns ps cn t) = extract_with_patterns ps cn t
  rw [h]

theorem extract_with_patterns_first_match (ps₁ : List RE) (p : RE) (cn : Bool) (t : List Char)
    (cap : Option (List Char)) (h1 : ∀ q ∈ ps₁, reSearch q t = none)
    (h2 : reSearch p t = some cap) :
    ∀ ps₂, extract_with_patterns (ps₁ ++ p :: ps₂) cn t = extractOne p cap cn := by
  intro ps₂
  induction ps₁ with
  | nil => simpa using extract_with_patterns_cons_match p ps₂ cn t cap h2
  | cons q qs ih =>
    rw [List.cons_append, extract_with_patterns_cons_fail q _ cn t (h1 q (by simp))]
    exact ih fun x hx => h1 x (by simp [hx])

theorem mem_runRE_eps (s : List Char) (q : List Char × Option (List Char))
    (hq : q ∈ runRE .eps s) : q = (s, none) := by
  simpa [runRE] using hq

theorem mem_runRE_cls (p : Char → Bool) (s : List Char) (q : List Char × Option (List Char))
    (hq : q ∈ runRE (.cls p) s) : ∃ c r, s = c :: r ∧ p c = true ∧ q = (r, none) := by
  cases s with
  | nil => simp [runRE] at hq
  | cons c r =>
    by_cases h : p c
    · refine ⟨c, r, rfl, h, ?_⟩
      simpa [runRE, h] using hq
    · simp [runRE, h] at hq

theorem mem_runRE_cat (a b : RE) (s : List Char) (q : List Char × Option (List Char))
    (hq : q ∈ runRE (.cat a b) s) :
    ∃ q1 q2, q1 ∈ runRE a s ∧ q2 ∈ runRE b q1.1 ∧ q = (q2.1, mergeCap q1.2 q2.2) := by
  simp only [runRE, List.mem_flatMap, List.mem_map] at hq
  obtain ⟨q1, hq1, q2, hq2, hq⟩ := hq
  exact ⟨q1, q2, hq1, hq2, hq.symm⟩

theorem mem_runRE_opt (a : RE) (s : List Char) (q : List Char × Option (List Char))
    (hq : q ∈ runRE (.opt a) s) : q ∈ runRE a s ∨ q = (s, none) := by
  simp only [runRE, List.mem_append, List.mem_singleton] at hq
  exact hq

theorem mem_runRE_star (p : Char → Bool) (s : List Char) (q : List Char × Option (List Char))
    (hq : q ∈ runRE (.star p) s) :
    ∃ j, j ≤ (s.takeWhile p).length ∧ q = (s.drop j, none) := by
  simp only [runRE, List.mem_map, List.mem_range] at hq
  obtain ⟨i, hi, hq⟩ := hq
  exact ⟨(s.takeWhile p).length - i, Nat.sub_le _ _, hq.symm⟩

theorem mem_runRE_grp (a : RE) (s : List Char) (q : List Char × Option (List Char))
    (hq : q ∈ runRE (.grp a) s) :
    ∃ q1, q1 ∈ runRE a s ∧ q = (q1.1, some (s.take (s.length - q1.1.length))) := by
  simp only [runRE, List.mem_map] at hq
  obtain ⟨q1, hq1, hq⟩ := hq
  exact ⟨q1, hq1, hq.symm⟩

theorem runRE_noGrp_cap (r : RE) :
    hasGrp r = false → ∀ (s : List Char) (q : List Char × Option (List Char)),
      q ∈ runRE r s → q.2 = none := by
  induction r with
  | eps =>
    intro hg s q hq
    rw [mem_runRE_eps s q hq]
  | cls p =>
    intro hg s q hq
    obtain ⟨c, rr, _, _, hq2⟩ := mem_runRE_cls p s q hq
    rw [hq2]
  | cat a b iha ihb =>
    intro hg s q hq
    obtain ⟨q1, q2, hq1, hq2, hq3⟩ := mem_runRE_cat a b s q hq
    simp only [hasGrp, Bool.or_eq_false_iff] at hg
    rw [hq3]
    show mergeCap q1.2 q2.2 = none
    rw [iha hg.1 s q1 hq1, ihb hg.2 q1.1 q2 hq2]
    rfl
  | alt a b iha ihb =>
    intro hg s q hq
    simp only [hasGrp, Bool.or_eq_false_iff] at hg
    rcases List.mem_append.1 (by simpa [runRE] using hq) with h | h
    · exact iha hg.1 s q h
    · exact ihb hg.2 s q h
  | star p =>
    intro hg s q hq
    obtain ⟨j, _, hq2⟩ := mem_runRE_star p s q hq
    rw [hq2]
  | lstar p =>
    intro hg s q hq
    simp only [runRE, List.mem_map, List.mem_range] at hq
    obtain ⟨i, _, hq2⟩ := hq
    rw [← hq2]
  | opt a iha =>
    intro hg s q hq
    rcases mem_runRE_opt a s q hq with h | h
    · exact iha (by simpa [hasGrp] using hg) s q h
    · rw [h]
  | grp a =>
    intro hg
    simp [hasGrp] at hg
  | dollar =>
    intro hg s q hq
    by_cases h : s = [] ∨ s = ['\n']
    · have hqq : q = (s, none) := by simpa [runRE, h] using hq
      rw [hqq]
    · simp [runRE, h] at hq

theorem take_of_le_takeWhile (p : Char → Bool) (s : List Char) (j : Nat)
    (hj : j ≤ (s.takeWhile p).length) : ∀ c ∈ s.take j, p c = true := by
  intro c hc
  have hs : s.take j = (s.takeWhile p).take j := by
    conv_lhs => rw [← List.takeWhile_append_dropWhile p s]
    rw [List.take_append_of_le_length hj]
  rw [hs] at hc
  exact List.mem_takeWhile_imp (List.take_subset j _ hc)


theorem runRE_frac_pre (s : List Char) (q : List Char × Option (List Char))
    (hq : q ∈ runRE fracRE s) :
    ∃ a b, s = '.' :: a :: b :: q.1 ∧ a.isDigit = true ∧ b.isDigit = true := by
  rw [show fracRE = RE.cat (.cls (fun c => c == '.'))
      (.cat (.cls Char.isDigit) (.cat (.cls Char.isDigit) .eps)) from rfl] at hq
  obtain ⟨q1, q2, hq1, hq2, rfl⟩ := mem_runRE_cat _ _ s q hq
  obtain ⟨c1, r1, rfl, hp1, rfl⟩ := mem_runRE_cls _ s q1 hq1
  obtain ⟨q3, q4, hq3, hq4, rfl⟩ := mem_runRE_cat _ _ _ q2 hq2
  obtain ⟨c2, r2, hr2, hp2, rfl⟩ := mem_runRE_cls _ _ q3 hq3
  obtain ⟨q5, q6, hq5, hq6, rfl⟩ := mem_runRE_cat _ _ _ q4 hq4
  obtain ⟨c3, r3, hr3, hp3, rfl⟩ := mem_runRE_cls _ _ q5 hq5
  have he := mem_runRE_eps _ q6 hq6
  subst he
  have hc1 : c1 = '.' := by simpa using hp1
  subst hc1
  simp only at hr2 hr3 ⊢
  subst hr2
  subst hr3
  exact ⟨c2, c3, rfl, hp2, hp3⟩

theorem runRE_numBody_pre (s : List Char) (q : List Char × Option (List Char))
    (hq : q ∈ runRE numBody s) :
    ∃ d m f, s = ((d :: m) ++ f) ++ q.1 ∧ digitComma d = true
      ∧ (∀ c ∈ m, digitComma c = true)
      ∧ (f = [] ∨ ∃ a b, f = ['.', a, b] ∧ a.isDigit = true ∧ b.isDigit = true) := by
  rw [show numBody = RE.cat (.cls digitComma)
      (.cat (.star digitComma) (.cat (.opt fracRE) .eps)) from rfl] at hq
  obtain ⟨q1, q2, hq1, hq2, rfl⟩ := mem_runRE_cat _ _ s q hq
  obtain ⟨d, r1, rfl, hpd, rfl⟩ := mem_runRE_cls _ s q1 hq1
  obtain ⟨q3, q4, hq3, hq4, rfl⟩ := mem_runRE_cat _ _ _ q2 hq2
  obtain ⟨j, hj, rfl⟩ := mem_runRE_star _ _ q3 hq3
  obtain ⟨q5, q6, hq5, hq6, rfl⟩ := mem_runRE_cat _ _ _ q4 hq4
  have he := mem_runRE_eps _ q6 hq6
  subst he
  rcases mem_runRE_opt _ _ q5 hq5 with hfrac | hnone
  · obtain ⟨a, b, hs5, hda, hdb⟩ := runRE_frac_pre _ q5 hfrac
    refine ⟨d, r1.take j, ['.', a, b], ?_, hpd, take_of_le_takeWhile _ _ j hj, Or.inr ⟨a, b, rfl, hda, hdb⟩⟩
    simp only at hs5
    simp only [List.cons_append, List.append_assoc, List.cons.injEq, true_and, List.nil_append]
    rw [← hs5]
    exact (List.take_append_drop j r1).symm
  · subst hnone
    refine ⟨d, r1.take j, [], ?_, hpd, take_of_le_takeWhile _ _ j hj, Or.inl rfl⟩
    simp only [List.append_nil, List.cons_append, List.cons.injEq, true_and]
    exact (List.take_append_drop j r1).symm

theorem reSearch_some_runRE (r : RE) (t : List Char) (cap : Option (List Char))
    (h : reSearch r t = some cap) : ∃ s q, q ∈ runRE r s ∧ q.2 = cap := by
  induction t with
  | nil =>
    rcases hrun : runRE r [] with _ | ⟨q, rest⟩
    · rw [reSearch, hrun] at h
      simp at h
    · rw [reSearch, hrun] at h
      simp only [Option.some.injEq] at h
      exact ⟨[], q, by simp [hrun], h⟩
  | cons c rest ih =>
    rcases hrun : runRE r (c :: rest) with _ | ⟨q, l⟩
    · rw [reSearch, hrun] at h
      exact ih h
    · rw [reSearch, hrun] at h
      simp only [Option.some.injEq] at h
      exact ⟨c :: rest, q, by simp [hrun], h⟩

theorem numPat_capture_shape (pre : RE) (hg : hasGrp pre = false) (t : List Char)
    (v : List Char) (h : reSearch (numPat pre) t = some (some v)) :
    ∃ d m f, v = (d :: m) ++ f ∧ digitComma d = true
      ∧ (∀ c ∈ m, digitComma c = true)
      ∧ (f = [] ∨ ∃ a b, f = ['.', a, b] ∧ a.isDigit = true ∧ b.isDigit = true) := by
  obtain ⟨s, q, hq, hcap⟩ := reSearch_some_runRE _ t _ h
  rw [show numPat pre = RE.cat pre (.grp numBody) from rfl] at hq
  obtain ⟨q1, q2, hq1, hq2, rfl⟩ := mem_runRE_cat _ _ s q hq
  obtain ⟨q3, hq3, rfl⟩ := mem_runRE_grp _ _ q2 hq2
  have hnone : q1.2 = none := runRE_noGrp_cap pre hg s q1 hq1
  rw [hnone] at hcap
  obtain ⟨d, m, f, hpre, hd, hm, hf⟩ := runRE_numBody_pre _ q3 hq3
  refine ⟨d, m, f, ?_, hd, hm, hf⟩
  have hlen : q1.1.length - q3.1.length = ((d :: m) ++ f).length := by
    rw [hpre]
    simp
    omega
  have hcap2 : mergeCap none (some (q1.1.take (q1.1.length - q3.1.length))) = some v := hcap
  have hcap3 : q1.1.take (q1.1.length - q3.1.length) = v := by
    simpa [mergeCap] using hcap2
  rw [← hcap3, hlen, hpre, List.take_left]

theorem isDigit_not_pws (c : Char) (h : c.isDigit = true) : pws c = false := by
  by_contra hc
  have hpws : pws c = true := by simpa using hc
  simp only [pws, Bool.or_eq_true, beq_iff_eq] at hpws
  rcases hpws with ((((rfl | rfl) | rfl) | rfl) | rfl) | rfl <;> simp [Char.isDigit] at h

theorem digitComma_nocomma_digit (c : Char) (h1 : digitComma c = true)
    (h2 : (c == ',') = false) : c.isDigit = true := by
  simp only [digitComma, Bool.or_eq_true] at h1
  rcases h1 with h1 | h1
  · exact h1
  · rw [h1] at h2
    simp at h2

theorem isDigit_ne_comma (c : Char) (h : c.isDigit = true) : (c == ',') = false := by
  by_contra hc
  have hcc : c = ',' := by simpa using hc
  subst hcc
  simp [Char.isDigit] at h

theorem cleanedNumShape_of_parts (D f : List Char)
    (hD : ∀ c ∈ D, c.isDigit = true)
    (hf : f = [] ∨ ∃ a b, f = ['.', a, b] ∧ a.isDigit = true ∧ b.isDigit = true) :
    cleanedNumShape (D ++ f) = true := by
  unfold cleanedNumShape
  have htake : (D ++ f).takeWhile Char.isDigit = D ++ f.takeWhile Char.isDigit :=
    List.takeWhile_append_of_pos hD
  rcases hf with rfl | ⟨a, b, rfl, hda, hdb⟩
  · rw [htake]
    simp
  · have hftake : List.takeWhile Char.isDigit ['.', a, b] = [] :=
      List.takeWhile_cons_of_neg (by decide)
    rw [htake, hftake, List.append_nil, List.drop_left]
    simp [hda, hdb]

theorem cleaned_capture (v w : List Char)
    (hw : w = v.filter (fun c => c != ','))
    (hv : ∃ d m f, v = (d :: m) ++ f ∧ digitComma d = true ∧ (∀ c ∈ m, digitComma c = true)
      ∧ (f = [] ∨ ∃ a b, f = ['.', a, b] ∧ a.isDigit = true ∧ b.isDigit = true)) :
    pyStrip w = w ∧ w.all (fun c => c != ',') = true ∧ cleanedNumShape w = true := by
  obtain ⟨d, m, f, rfl, hd, hm, hf⟩ := hv
  have hffil : f.filter (fun c => c != ',') = f := by
    rcases hf with rfl | ⟨a, b, rfl, hda, hdb⟩
    · rfl
    · have ha : (a != ',') = true := by simp [bne, isDigit_ne_comma a hda]
      have hb : (b != ',') = true := by simp [bne, isDigit_ne_comma b hdb]
      simp [List.filter, ha, hb]
  have hwparts : w = (d :: m).filter (fun c => c != ',') ++ f := by
    rw [hw, List.filter_append, hffil]
  have hDdig : ∀ c ∈ (d :: m).filter (fun c => c != ','), c.isDigit = true := by
    intro c hc
    have h1 := List.mem_filter.1 hc
    have hdc : digitComma c = true := by
      rcases List.mem_cons.1 h1.1 with rfl | hcm
      · exact hd
      · exact hm c hcm
    exact digitComma_nocomma_digit c hdc (by simpa using h1.2)
  have hallmem : ∀ c ∈ w, pws c = false ∧ (c != ',') = true := by
    intro c hc
    rw [hwparts] at hc
    rcases List.mem_append.1 hc with hc1 | hc1
    · have hdig := hDdig c hc1
      exact ⟨isDigit_not_pws c hdig, by simpa using isDigit_ne_comma c hdig⟩
    · rcases hf with rfl | ⟨a, b, rfl, hda, hdb⟩
      · simp at hc1
      · rcases List.mem_cons.1 hc1 with rfl | hc2
        · exact ⟨by decide, by decide⟩
        · rcases List.mem_cons.1 hc2 with rfl | hc3
          · exact ⟨isDigit_not_pws c hda, by simpa using isDigit_ne_comma c hda⟩
          · rcases List.mem_cons.1 hc3 with rfl | hc4
            · exact ⟨isDigit_not_pws c hdb, by simpa using isDigit_ne_comma c hdb⟩
            · simp at hc4
  refine ⟨?_, ?_, ?_⟩
  · apply pyStrip_eq_self
    · intro c hc
      exact (hallmem c (List.mem_of_mem_head? hc)).1
    · intro c hc
      exact (hallmem c (List.mem_of_mem_getLast? hc)).1
  · rw [List.all_eq_true]
    intro c hc
    exact (hallmem c hc).2
  · rw [hwparts]
    exact cleanedNumShape_of_parts _ f hDdig hf

theorem extract_with_patterns_numeric (ps : List RE) (t v : List Char)
    (hps : ∀ p ∈ ps, ∃ pre, p = numPat pre ∧ hasGrp pre = false)
    (h : extract_with_patterns ps true t = .ok (some v)) :
    v.all (fun c => c != ',') = true ∧ cleanedNumShape v = true := by
  induction ps with
  | nil => simp [extract_with_patterns] at h
  | cons p ps ih =>
    cases hsearch : reSearch p t with
    | none =>
      rw [extract_with_patterns_cons_fail _ _ _ _ hsearch] at h
      exact ih (fun x hx => hps x (by simp [hx])) h
    | some cap =>
      rw [extract_with_patterns_cons_match _ _ _ _ _ hsearch] at h
      obtain ⟨pre, rfl, hg⟩ := hps p (by simp)
      unfold extractOne at h
      rw [if_pos (by simp [hasGrp, numPat])] at h
      cases cap with
      | none => simp at h
      | some v0 =>
        simp only [eq_self_iff_true, if_true, Except.ok.injEq, Option.some.injEq] at h
        have hshape := numPat_capture_shape pre hg t v0 hsearch
        have hclean := cleaned_capture v0 (v0.filter (fun c => c != ',')) rfl hshape
        rw [← h, hclean.1]
        exact ⟨hclean.2.1, hclean.2.2⟩

/-!
Lemmas about the coverage-details extractor.
-/

theorem dashMatch_rest_le (r : List Char) (q : List Char × List Char)
    (hq : dashMatch r = some q) : q.2.length ≤ r.length := by
  unfold dashMatch at hq
  rcases hafter : r.dropWhile pws with _ | ⟨c, rest⟩
  · rw [hafter] at hq
    simp only at hq
    rcases hrev : (r.takeWhile pws).reverse.dropWhile (fun c => c == '\n') with _ | ⟨x, revPre⟩
    · rw [hrev] at hq
      simp at hq
    · rw [hrev] at hq
      simp only [Option.some.injEq] at hq
      rw [← hq]
      calc (((r.takeWhile pws).drop revPre.length).dropWhile (fun c => c != '\n')).length
          ≤ ((r.takeWhile pws).drop revPre.length).length :=
            (List.dropWhile_sublist _).length_le
        _ ≤ (r.takeWhile pws).length := by
            rw [List.length_drop]
            omega
        _ ≤ r.length := (List.takeWhile_sublist _).length_le
  · rw [hafter] at hq
    simp only [Option.some.injEq] at hq
    rw [← hq]
    calc ((c :: rest).dropWhile (fun c => c != '\n')).length
        ≤ (c :: rest).length := (List.dropWhile_sublist _).length_le
      _ = (r.dropWhile pws).length := by rw [hafter]
      _ ≤ r.length := (List.dropWhile_sublist _).length_le

theorem findDashItemsF_fuelIrrel (n : Nat) : ∀ (m : Nat) (s : List Char),
    s.length ≤ n → s.length ≤ m → findDashItemsF n s = findDashItemsF m s := by
  induction n with
  | zero =>
    intro m s hn _
    have : s = [] := List.length_eq_zero.1 (Nat.le_zero.1 hn)
    subst this
    cases m <;> rfl
  | succ n ih =>
    intro m s hn hm
    cases s with
    | nil => cases m <;> rfl
    | cons c r =>
      cases m with
      | zero => simp at hm
      | succ m2 =>
        show (if c == '-' then
            match dashMatch r with
            | some q => q.1 :: findDashItemsF n q.2
            | none => findDashItemsF n r
          else findDashItemsF n r) =
          (if c == '-' then
            match dashMatch r with
            | some q => q.1 :: findDashItemsF m2 q.2
            | none => findDashItemsF m2 r
          else findDashItemsF m2 r)
        have hrn : r.length ≤ n := by simpa using hn
        have hrm : r.length ≤ m2 := by simpa using hm
        by_cases hc : (c == '-') = true
        · rw [if_pos hc, if_pos hc]
          rcases hdm : dashMatch r with _ | ⟨q⟩
          · exact ih m2 r hrn hrm
          · have hlen := dashMatch_rest_le r q hdm
            show q.1 :: findDashItemsF n q.2 = q.1 :: findDashItemsF m2 q.2
            rw [ih m2 q.2 (le_trans hlen hrn) (le_trans hlen hrm)]
        · rw [if_neg (by simpa using hc), if_neg (by simpa using hc)]
          exact ih m2 r hrn hrm

theorem findDashItems_cons (c : Char) (r : List Char) :
    findDashItems (c :: r) =
      (if c == '-' then
        match dashMatch r with
        | some q => q.1 :: findDashItems q.2
        | none => findDashItems r
      else findDashItems r) := by
  show findDashItemsF (c :: r).length (c :: r) = _
  rw [show (c :: r).length = r.length + 1 from rfl]
  show (if c == '-' then
      match dashMatch r with
      | some q => q.1 :: findDashItemsF r.length q.2
      | none => findDashItemsF r.length r
    else findDashItemsF r.length r) = _
  by_cases hc : (c == '-') = true
  · rw [if_pos hc, if_pos hc]
    rcases hdm : dashMatch r with _ | ⟨q⟩
    · rfl
    · have hlen := dashMatch_rest_le r q hdm
      show q.1 :: findDashItemsF r.length q.2 = q.1 :: findDashItemsF q.2.length q.2
      rw [findDashItemsF_fuelIrrel r.length q.2.length q.2 hlen (Nat.le_refl _)]
  · rw [if_neg (by simpa using hc), if_neg (by simpa using hc)]
    rfl

theorem specDashItem_not_dash (c : Char) (rest : List Char) (hc : (c == '-') = false) :
    specDashItem (c :: rest) = none := by
  unfold specDashItem
  split
  · rename_i heq
    simp only [List.cons.injEq] at heq
    rw [heq.1] at hc
    simp at hc
  · rfl

theorem codeDashItem_not_dash (c : Char) (rest : List Char) (hc : (c == '-') = false) :
    codeDashItem (c :: rest) = none := by
  unfold codeDashItem
  split
  · rename_i heq
    simp only [List.cons.injEq] at heq
    rw [heq.1] at hc
    simp at hc
  · rfl

theorem findDashItems_no_dash (s : List Char) (h : ∀ c ∈ s, (c == '-') = false) :
    findDashItems s = [] := by
  induction s with
  | nil => rfl
  | cons c r ih =>
    rw [findDashItems_cons, if_neg (by simp [h c (by simp)])]
    exact ih fun x hx => h x (by simp [hx])

theorem findDashItems_append_no_dash (a w : List Char) (h : ∀ c ∈ a, (c == '-') = false) :
    findDashItems (a ++ w) = findDashItems w := by
  induction a with
  | nil => simp
  | cons c r ih =>
    rw [List.cons_append, findDashItems_cons, if_neg (by simp [h c (by simp)])]
    exact ih fun x hx => h x (by simp [hx])

theorem dropWhile_ne_nil_of_any (p : Char → Bool) (l : List Char)
    (h : l.any (fun c => !p c) = true) : l.dropWhile p ≠ [] := by
  induction l with
  | nil => simp at h
  | cons c r ih =>
    rw [List.dropWhile_cons]
    by_cases hc : p c = true
    · rw [if_pos hc]
      apply ih
      simp only [List.any_cons, Bool.or_eq_true] at h
      rcases h with h | h
      · rw [hc] at h
        simp at h
      · exact h
    · rw [if_neg (by simpa using hc)]
      simp

theorem takeWhile_ne_nl_all (x : List Char) (h : ∀ c ∈ x, (c == '\n') = false) :
    x.takeWhile (fun c => c != '\n') = x := by
  induction x with
  | nil => rfl
  | cons c r ih =>
    rw [List.takeWhile_cons, if_pos (by simp [bne, h c (by simp)])]
    rw [ih fun d hd => h d (by simp [hd])]

theorem dropWhile_ne_nl_all (x : List Char) (h : ∀ c ∈ x, (c == '\n') = false) :
    x.dropWhile (fun c => c != '\n') = [] := by
  induction x with
  | nil => rfl
  | cons c r ih =>
    rw [List.dropWhile_cons, if_pos (by simp [bne, h c (by simp)])]
    exact ih fun d hd => h d (by simp [hd])

theorem dashMatch_line (rest w : List Char) (hany : rest.any (fun c => !pws c) = true)
    (hnl : ∀ c ∈ rest, (c == '\n') = false) :
    dashMatch (rest ++ '\n' :: w) = some (rest.dropWhile pws, '\n' :: w) := by
  unfold dashMatch
  have hne := dropWhile_ne_nil_of_any pws rest hany
  have hd : (rest ++ '\n' :: w).dropWhile pws = rest.dropWhile pws ++ '\n' :: w := by
    rw [List.dropWhile_append, if_neg (by simpa using hne)]
  rw [hd]
  have hnl2 : ∀ c ∈ rest.dropWhile pws, (c == '\n') = false :=
    fun c hc => hnl c ((List.dropWhile_sublist pws).subset hc)
  rcases hdp : rest.dropWhile pws with _ | ⟨c, rr⟩
  · exact absurd hdp hne
  · simp only [List.cons_append]
    have htk : ((c :: rr) ++ '\n' :: w).takeWhile (fun d => d != '\n') = c :: rr := by
      rw [List.takeWhile_append_of_pos (by
        intro a ha
        rw [← hdp] at ha
        simp [bne, hnl2 a ha])]
      rw [List.takeWhile_cons, if_neg (by simp [bne])]
      simp
    have hdr : ((c :: rr) ++ '\n' :: w).dropWhile (fun d => d != '\n') = '\n' :: w := by
      rw [List.dropWhile_append_of_pos (by
        intro a ha
        rw [← hdp] at ha
        simp [bne, hnl2 a ha])]
      rw [List.dropWhile_cons, if_neg (by simp [bne])]
    rw [← List.cons_append, htk, hdr]

theorem dashMatch_line_last (rest : List Char) (hany : rest.any (fun c => !pws c) = true)
    (hnl : ∀ c ∈ rest, (c == '\n') = false) :
    dashMatch rest = some (rest.dropWhile pws, []) := by
  unfold dashMatch
  have hne := dropWhile_ne_nil_of_any pws rest hany
  have hnl2 : ∀ c ∈ rest.dropWhile pws, (c == '\n') = false :=
    fun c hc => hnl c ((List.dropWhile_sublist pws).subset hc)
  rcases hdp : rest.dropWhile pws with _ | ⟨c, rr⟩
  · exact absurd hdp hne
  · simp only
    have hall : ∀ c ∈ rest.dropWhile pws, (c == '\n') = false := hnl2
    rw [takeWhile_ne_nl_all (c :: rr) (by
      intro a ha
      rw [← hdp] at ha
      exact hnl2 a ha)]
    rw [dropWhile_ne_nl_all (c :: rr) (by
      intro a ha
      rw [← hdp] at ha
      exact hnl2 a ha)]

theorem goodDashLine_dash (rest : List Char) (hg : goodDashLine ('-' :: rest) = true) :
    rest.any (fun c => !pws c) = true := by
  simpa [goodDashLine] using hg

theorem goodDashLine_not_dash (c : Char) (rest : List Char) (hc : (c == '-') = false)
    (hg : goodDashLine (c :: rest) = true) : ∀ d ∈ (c :: rest), (d == '-') = false := by
  unfold goodDashLine at hg
  revert hg
  split
  · rename_i heq
    simp only [List.cons.injEq] at heq
    rw [heq.1] at hc
    simp at hc
  · intro hg d hd
    have hall := List.all_eq_true.1 hg d hd
    simpa [bne] using hall

theorem findDashItems_joinNl (ls : List (List Char))
    (h : ∀ l ∈ ls, goodDashLine l = true ∧ ∀ c ∈ l, (c == '\n') = false) :
    findDashItems (joinNl ls) = ls.filterMap codeDashItem := by
  induction ls with
  | nil => rfl
  | cons l ls2 ih =>
    rcases ls2 with _ | ⟨m, ls3⟩
    · rw [show joinNl [l] = l from rfl]
      rcases l with _ | ⟨c, rest⟩
      · rfl
      · by_cases hc : (c == '-') = true
        · have hcc : c = '-' := by simpa using hc
          subst hcc
          have hany := goodDashLine_dash rest (h ('-' :: rest) (by simp)).1
          have hnl := (h ('-' :: rest) (by simp)).2
          rw [findDashItems_cons, if_pos (by decide)]
          rw [dashMatch_line_last rest hany (fun d hd => hnl d (by simp [hd]))]
          rw [List.filterMap_cons_some (show codeDashItem ('-' :: rest)
            = some (rest.dropWhile pws) from rfl)]
          rfl
        · have hnodash := goodDashLine_not_dash c rest (by simpa using hc)
            (h (c :: rest) (by simp)).1
          rw [findDashItems_no_dash _ hnodash]
          rw [List.filterMap_cons_none (codeDashItem_not_dash c rest (by simpa using hc))]
          rfl
    · have hjoin : joinNl (l :: m :: ls3) = l ++ '\n' :: joinNl (m :: ls3) := by
        simp [joinNl, joinSep]
      rw [hjoin]
      have htail : ∀ x ∈ m :: ls3, goodDashLine x = true ∧ ∀ c ∈ x, (c == '\n') = false :=
        fun x hx => h x (by simp [hx])
      rcases l with _ | ⟨c, rest⟩
      · rw [List.nil_append, findDashItems_cons, if_neg (by decide), ih htail]
        rw [List.filterMap_cons_none (show codeDashItem [] = none from rfl)]
      · by_cases hc : (c == '-') = true
        · have hcc : c = '-' := by simpa using hc
          subst hcc
          have hany := goodDashLine_dash rest (h ('-' :: rest) (by simp)).1
          have hnl := (h ('-' :: rest) (by simp)).2
          rw [List.cons_append, findDashItems_cons, if_pos (by decide)]
          rw [dashMatch_line rest (joinNl (m :: ls3)) hany (fun d hd => hnl d (by simp [hd]))]
          rw [List.filterMap_cons_some (show codeDashItem ('-' :: rest)
            = some (rest.dropWhile pws) from rfl)]
          show rest.dropWhile pws :: findDashItems ('\n' :: joinNl (m :: ls3)) = _
          rw [findDashItems_cons, if_neg (by decide), ih htail]
        · have hnodash := goodDashLine_not_dash c rest (by simpa using hc)
            (h (c :: rest) (by simp)).1
          rw [show (c :: rest) ++ '\n' :: joinNl (m :: ls3)
            = ((c :: rest) ++ ['\n']) ++ joinNl (m :: ls3) from by simp]
          rw [findDashItems_append_no_dash _ _ (by
            intro d hd
            rcases List.mem_append.1 hd with hd1 | hd1
            · exact hnodash d hd1
            · have : d = '\n' := by simpa using hd1
              subst this
              decide)]
          rw [ih htail]
          rw [List.filterMap_cons_none (codeDashItem_not_dash c rest (by simpa using hc))]

theorem dropWhile_pws_idem (s : List Char) :
    (s.dropWhile pws).dropWhile pws = s.dropWhile pws := by
  induction s with
  | nil => rfl
  | cons c r ih =>
    rw [List.dropWhile_cons]
    by_cases hc : pws c = true
    · rw [if_pos hc]
      exact ih
    · rw [if_neg (by simpa using hc), List.dropWhile_cons, if_neg (by simpa using hc)]

theorem pyStrip_dropWhile (s : List Char) : pyStrip (s.dropWhile pws) = pyStrip s := by
  unfold pyStrip
  rw [dropWhile_pws_idem]

theorem map_pyStrip_filterMap_code (ls : List (List Char)) :
    (ls.filterMap codeDashItem).map pyStrip = ls.filterMap specDashItem := by
  induction ls with
  | nil => rfl
  | cons l ls2 ih =>
    rcases l with _ | ⟨c, rest⟩
    · rw [List.filterMap_cons_none (show codeDashItem [] = none from rfl),
        List.filterMap_cons_none (show specDashItem [] = none from rfl), ih]
    · by_cases hc : (c == '-') = true
      · have hcc : c = '-' := by simpa using hc
        subst hcc
        rw [List.filterMap_cons_some
          (show codeDashItem ('-' :: rest) = some (rest.dropWhile pws) from rfl)]
        rw [List.filterMap_cons_some
          (show specDashItem ('-' :: rest) = some (pyStrip rest) from rfl)]
        rw [List.map_cons, ih, pyStrip_dropWhile]
      · rw [List.filterMap_cons_none (codeDashItem_not_dash c rest (by simpa using hc)),
          List.filterMap_cons_none (specDashItem_not_dash c rest (by simpa using hc)), ih]

theorem coverage_details_agree_aux (raw suffix : List Char)
    (hh : findHeaderSuffix raw = some suffix)
    (hgood : (splitNl (upToBlank suffix)).all goodDashLine = true) :
    extract_coverage_details raw = coverageDetailsSpec raw := by
  unfold extract_coverage_details coverageDetailsSpec
  rw [hh]
  have hlines : ∀ l ∈ splitNl (upToBlank suffix),
      goodDashLine l = true ∧ ∀ c ∈ l, (c == '\n') = false := by
    intro l hl
    refine ⟨List.all_eq_true.1 hgood l hl, fun c hc => ?_⟩
    exact splitOnP_pieces_not _ (upToBlank suffix) l hl c hc
  calc (findDashItems (upToBlank suffix)).map pyStrip
      = (findDashItems (joinNl (splitNl (upToBlank suffix)))).map pyStrip := by
        rw [joinNl_splitNl]
    _ = ((splitNl (upToBlank suffix)).filterMap codeDashItem).map pyStrip := by
        rw [findDashItems_joinNl _ hlines]
    _ = (splitNl (upToBlank suffix)).filterMap specDashItem :=
        map_pyStrip_filterMap_code _

/-!
Supporting lemmas for the claim theorems.
-/

theorem unitCatch_some (body : List Char → Except Unit (Option (List Char)))
    (t : List Char) (v : List Char) (h : unitCatch body t = some v) :
    body t = .ok (some v) := by
  unfold unitCatch at h
  rcases hb : body t with e | w
  · rw [hb] at h
    simp at h
  · rw [hb] at h
    rw [show w = some v from h]

theorem truthy_iff (o : Option (List Char)) :
    truthy o = true ↔ ∃ v, o = some v ∧ v ≠ [] := by
  cases o with
  | none => simp [truthy]
  | some v => simp [truthy, List.isEmpty_iff]

/-!
The claim theorems.
-/

/-- C1: for every file path whose acquisition fails (unsupported extension,
missing file, permission denied, unavailable PDF capability, or any other
read error), the top-level parse operation does not raise: it returns the
default structure instead of propagating the error. -/
theorem claim1_parse_defaults_on_acquisition_failure
    (pdfSupport : Bool) (fs : FileSys) (file_path now : List Char) (e : AcqError)
    (h : extract_text_from_file pdfSupport fs file_path = .error e) :
    parse pdfSupport fs file_path now = get_default_structure := by
  unfold parse parse_parsed_data read_document
  rw [h]

/-- Witness for C1: the unsupported extension docx over a file system in
which every access also fails. -/
theorem claim1_witness :
    extract_text_from_file false fsAbsent docxPath = .error .valueErr
    ∧ parse false fsAbsent docxPath [] = get_default_structure := by
  refine ⟨rfl, ?_⟩
  exact claim1_parse_defaults_on_acquisition_failure false fsAbsent docxPath [] .valueErr rfl

/-- C2 counterexample: on a run whose acquisition failed, `parse` returns
the default structure, but the save operation dumps `self.parsed_data`,
which was never assigned, so the persisted JSON object has no fields at
all — in particular not policy_number. -/
theorem claim2_counterexample :
    parse false fsAbsent txtPath [] = get_default_structure
    ∧ save_to_json_keys (parse_parsed_data false fsAbsent txtPath []) = []
    ∧ ['p', 'o', 'l', 'i', 'c', 'y', '_', 'n', 'u', 'm', 'b', 'e', 'r']
        ∉ save_to_json_keys (parse_parsed_data false fsAbsent txtPath []) := by
  refine ⟨rfl, rfl, ?_⟩
  rw [show save_to_json_keys (parse_parsed_data false fsAbsent txtPath []) = [] from rfl]
  simp

/-- C2 amended: the persisted JSON object contains exactly the fifteen
record fields for every run in which acquisition succeeded; after a failed
acquisition the persisted object is empty. -/
theorem claim2_amended_saved_fields (pdfSupport : Bool) (fs : FileSys)
    (file_path now : List Char) (pr : List Char × List Char)
    (h : read_document pdfSupport fs file_path = .ok pr) :
    save_to_json_keys (parse_parsed_data pdfSupport fs file_path now) = fieldNames := by
  unfold parse_parsed_data
  rw [h]
  rfl

/-- Witness for C2 amended: a readable text file. -/
theorem claim2_witness :
    read_document false fsOneTxt txtPath = .ok (['A'], normalize_text ['A'])
    ∧ save_to_json_keys (parse_parsed_data false fsOneTxt txtPath []) = fieldNames := by
  refine ⟨rfl, ?_⟩
  exact claim2_amended_saved_fields false fsOneTxt txtPath [] (['A'], normalize_text ['A']) rfl

/-- C3 counterexample: in the default structure `coverage_details` is
absent, not the empty sequence the claim asserts. -/
theorem claim3_counterexample :
    get_default_structure.coverage_details = none
    ∧ get_default_structure.coverage_details ≠ some [] := by
  refine ⟨rfl, ?_⟩
  intro h
  rw [show get_default_structure.coverage_details = none from rfl] at h
  simp at h

/-- C3 amended: the default structure has every one of its fifteen fields
absent, including `coverage_details`, which is absent rather than an empty
sequence. -/
theorem claim3_amended_default_all_absent :
    get_default_structure.policy_number = none
    ∧ get_default_structure.policyholder = none
    ∧ get_default_structure.policy_type = none
    ∧ get_default_structure.effective_date = none
    ∧ get_default_structure.expiration_date = none
    ∧ get_default_structure.coverage_amount = none
    ∧ get_default_structure.premium = none
    ∧ get_default_structure.total_premium = none
    ∧ get_default_structure.taxes = none
    ∧ get_default_structure.fees = none
    ∧ get_default_structure.deductible = none
    ∧ get_default_structure.payment_frequency = none
    ∧ get_default_structure.copay = none
    ∧ get_default_structure.coverage_details = none
    ∧ get_default_structure.parsed_at = none := by
  exact ⟨rfl, rfl, rfl, rfl, rfl, rfl, rfl, rfl, rfl, rfl, rfl, rfl, rfl, rfl, rfl⟩

/-- C4 counterexample: the section of `rawMidDash` has a single line reading
fire - damage, which does not begin with a dash, so the claimed line-based
reading yields no items, but the code matches the mid-line dash and returns
the item damage. -/
theorem claim4_counterexample :
    coverageDetailsSpec rawMidDash = []
    ∧ extract_coverage_details rawMidDash = [['d', 'a', 'm', 'a', 'g', 'e']] := by
  exact ⟨by decide, by decide⟩

/-- C4 amended: an item arises from every non-overlapping dash occurrence in
the section, not only from dash-initial lines; when every line of the
section either begins with a dash followed by non-whitespace on the same
line or contains no dash at all, the result is exactly the claimed
line-based reading (dash stripped, trimmed, in order), and the result is
the empty sequence when the header is absent. -/
theorem claim4_amended_coverage_details :
    (∀ raw suffix, findHeaderSuffix raw = some suffix →
      (splitNl (upToBlank suffix)).all goodDashLine = true →
      extract_coverage_details raw = coverageDetailsSpec raw)
    ∧ ∀ raw, findHeaderSuffix raw = none → extract_coverage_details raw = [] := by
  constructor
  · exact fun raw suffix hh hg => coverage_details_agree_aux raw suffix hh hg
  · intro raw hh
    unfold extract_coverage_details
    rw [hh]

/-- Witness for C4 amended: a section with two dash-initial lines followed
by a blank line and unrelated text. -/
theorem claim4_witness :
    extract_coverage_details rawTwoItems = coverageDetailsSpec rawTwoItems
    ∧ coverageDetailsSpec rawTwoItems
        = [['f', 'i', 'r', 'e'], ['t', 'h', 'e', 'f', 't']] := by
  refine ⟨?_, by decide⟩
  exact claim4_amended_coverage_details.1 rawTwoItems sufTwoItems (by decide) (by decide)

/-- C5: for every scalar field pattern list, patterns are tried strictly in
order: the first pattern whose search succeeds determines the result
through its captured group, and the patterns after it are never consulted
(the result does not depend on what follows the first match). -/
theorem claim5_first_match_wins (ps₁ : List RE) (p : RE) (cn : Bool) (t : List Char)
    (cap : Option (List Char)) (h1 : ∀ q ∈ ps₁, reSearch q t = none)
    (h2 : reSearch p t = some cap) (ps₂ ps₃ : List RE) :
    extract_with_patterns (ps₁ ++ p :: ps₂) cn t = extractOne p cap cn
    ∧ extract_with_patterns (ps₁ ++ p :: ps₂) cn t
        = extract_with_patterns (ps₁ ++ p :: ps₃) cn t := by
  have ha := extract_with_patterns_first_match ps₁ p cn t cap h1 h2
  exact ⟨ha ps₂, by rw [ha ps₂, ha ps₃]⟩

/-- Witness for C5: on the text Premium: $5 the first premium pattern fails,
the second matches with capture 5, and the full pattern list produces the
second pattern's processed capture. -/
theorem claim5_witness :
    reSearch premiumP1 tPremiumFive = none
    ∧ reSearch premiumP2 tPremiumFive = some (some ['5'])
    ∧ extract_with_patterns [premiumP1, premiumP2, premiumP3] true tPremiumFive
        = extractOne premiumP2 (some ['5']) true := by
  refine ⟨by decide, by decide, ?_⟩
  exact (claim5_first_match_wins [premiumP1] premiumP2 true tPremiumFive (some ['5'])
    (by
      intro q hq
      rw [List.mem_singleton] at hq
      subst hq
      decide)
    (by decide) [premiumP3] []).1

/-- C6: the normalizer is idempotent: normalizing an already-normalized
text returns it unchanged. -/
theorem claim6_normalize_idempotent (s : List Char) :
    normalize_text (normalize_text s) = normalize_text s :=
  normalize_text_idem s

/-- C7 counterexample: on the text Premium: comma, the numeric capture is
the comma alone, so the extracted premium is present but is the empty
string after comma-stripping — not a plain decimal number. -/
theorem claim7_counterexample :
    extract_premium tPremiumComma = some []
    ∧ plainDecimalShape [] = false := by
  exact ⟨by decide, by decide⟩

/-- C7 amended: whenever a numeric field value is present it contains no
comma and is a possibly empty run of digits optionally followed by a point
and exactly two digits; the digit run can be empty because the captured
group may consist of commas only. -/
theorem claim7_amended_numeric_shape (t v : List Char)
    (h : extract_coverage_amount t = some v ∨ extract_premium t = some v
      ∨ extract_total_premium t = some v ∨ extract_taxes t = some v
      ∨ extract_fees t = some v ∨ extract_deductible t = some v
      ∨ extract_copay t = some v) :
    v.all (fun c => c != ',') = true ∧ cleanedNumShape v = true := by
  rcases h with h | h | h | h | h | h | h
  · refine extract_with_patterns_numeric [coverageAmountP1, coverageAmountP2, coverageAmountP3]
      t v ?_ (unitCatch_some coverageAmountBody t v h)
    intro p hp
    simp only [List.mem_cons, List.not_mem_nil, or_false] at hp
    rcases hp with rfl | rfl | rfl
    · exact ⟨_, rfl, by rfl⟩
    · exact ⟨_, rfl, by rfl⟩
    · exact ⟨_, rfl, by rfl⟩
  · refine extract_with_patterns_numeric [premiumP1, premiumP2, premiumP3]
      t v ?_ (unitCatch_some premiumBody t v h)
    intro p hp
    simp only [List.mem_cons, List.not_mem_nil, or_false] at hp
    rcases hp with rfl | rfl | rfl
    · exact ⟨_, rfl, by rfl⟩
    · exact ⟨_, rfl, by rfl⟩
    · exact ⟨_, rfl, by rfl⟩
  · refine extract_with_patterns_numeric [totalPremiumP1, totalPremiumP2, totalPremiumP3]
      t v ?_ (unitCatch_some totalPremiumBody t v h)
    intro p hp
    simp only [List.mem_cons, List.not_mem_nil, or_false] at hp
    rcases hp with rfl | rfl | rfl
    · exact ⟨_, rfl, by rfl⟩
    · exact ⟨_, rfl, by rfl⟩
    · exact ⟨_, rfl, by rfl⟩
  · refine extract_with_patterns_numeric [taxesP1, taxesP2, taxesP3, taxesP4]
      t v ?_ (unitCatch_some taxesBody t v h)
    intro p hp
    simp only [List.mem_cons, List.not_mem_nil, or_false] at hp
    rcases hp with rfl | rfl | rfl | rfl
    · exact ⟨_, rfl, by rfl⟩
    · exact ⟨_, rfl, by rfl⟩
    · exact ⟨_, rfl, by rfl⟩
    · exact ⟨_, rfl, by rfl⟩
  · refine extract_with_patterns_numeric [feesP1, feesP2, feesP3]
      t v ?_ (unitCatch_some feesBody t v h)
    intro p hp
    simp only [List.mem_cons, List.not_mem_nil, or_false] at hp
    rcases hp with rfl | rfl | rfl
    · exact ⟨_, rfl, by rfl⟩
    · exact ⟨_, rfl, by rfl⟩
    · exact ⟨_, rfl, by rfl⟩
  · refine extract_with_patterns_numeric [deductibleP1, deductibleP2, deductibleP3]
      t v ?_ (unitCatch_some deductibleBody t v h)
    intro p hp
    simp only [List.mem_cons, List.not_mem_nil, or_false] at hp
    rcases hp with rfl | rfl | rfl
    · exact ⟨_, rfl, by rfl⟩
    · exact ⟨_, rfl, by rfl⟩
    · exact ⟨_, rfl, by rfl⟩
  · refine extract_with_patterns_numeric [copayP1, copayP2]
      t v ?_ (unitCatch_some copayBody t v h)
    intro p hp
    simp only [List.mem_cons, List.not_mem_nil, or_false] at hp
    rcases hp with rfl | rfl
    · exact ⟨_, rfl, by rfl⟩
    · exact ⟨_, rfl, by rfl⟩

/-- Witness for C7 amended: Premium: $1,200.00 extracts as 1200.00, which
has no comma and the guaranteed decimal shape. -/
theorem claim7_witness :
    extract_premium tPremiumAmount = some ['1', '2', '0', '0', '.', '0', '0']
    ∧ (['1', '2', '0', '0', '.', '0', '0'].all (fun c => c != ',') = true
      ∧ cleanedNumShape ['1', '2', '0', '0', '.', '0', '0'] = true) := by
  refine ⟨by decide, ?_⟩
  exact claim7_amended_numeric_shape tPremiumAmount ['1', '2', '0', '0', '.', '0', '0']
    (Or.inr (Or.inl (by decide)))

/-- C8 counterexample: a record whose premium is present (it is the empty
string, exactly what `parse` stores for a document reading Premium: comma)
has `has_financial_data` false, although one of the three financial fields
is present. -/
theorem claim8_counterexample :
    extract_premium tPremiumComma = some []
    ∧ recEmptyPremium.premium.isSome = true
    ∧ (validate_parsed_data recEmptyPremium).has_financial_data = false := by
  exact ⟨by decide, rfl, rfl⟩

/-- C8 amended: `has_financial_data` is true iff at least one of premium,
coverage_amount, total_premium is present with a non-empty value (the
source tests Python truthiness, not presence). -/
theorem claim8_amended_has_financial_data (r : ExtractedRecord) :
    (validate_parsed_data r).has_financial_data = true ↔
      ((∃ v, r.premium = some v ∧ v ≠ [])
        ∨ (∃ v, r.coverage_amount = some v ∧ v ≠ [])
        ∨ (∃ v, r.total_premium = some v ∧ v ≠ [])) := by
  show (truthy r.premium || truthy r.coverage_amount || truthy r.total_premium) = true ↔ _
  simp only [Bool.or_eq_true, truthy_iff]
  exact or_assoc

/-- C9: an internal error during pattern application inside a field
extraction unit is swallowed by the unit's wrapper and reported as absence;
no exception escapes a field extractor, each of which is exactly such a
wrapped body (shown here for the payment-frequency unit, whose third
pattern has no capture group). -/
theorem claim9_internal_error_absence
    (body : List Char → Except Unit (Option (List Char))) (t : List Char) (e : Unit)
    (h : body t = .error e) :
    unitCatch body t = none ∧ extract_payment_frequency = unitCatch paymentFrequencyBody := by
  refine ⟨?_, rfl⟩
  unfold unitCatch
  rw [h]

/-- Witness for C9: on the text Monthly Payment only the group-less third
payment-frequency pattern matches, the body raises, and the extractor
returns absence. -/
theorem claim9_witness :
    paymentFrequencyBody tMonthlyPayment = .error ()
    ∧ extract_payment_frequency tMonthlyPayment = none := by
  refine ⟨rfl, ?_⟩
  exact (claim9_internal_error_absence paymentFrequencyBody tMonthlyPayment () rfl).1

/-- C10: for every input, the normalizer output contains no run of three or
more consecutive newlines, and no line of the output has leading or
trailing whitespace (stripping any output line leaves it unchanged). -/
theorem claim10_normalize_output_clean (s : List Char) :
    hasRun3 (normalize_text s) = false
    ∧ (splitNl (normalize_text s)).all (fun l => pyStrip l == l) = true := by
  refine ⟨normalize_text_noRun3 s, ?_⟩
  rw [List.all_eq_true]
  intro l hl
  simp [normalize_text_lines_strip s l hl]
